import Mathlib

/-!
# A verification development for `kilo.c`

A shallow embedding of the terminal layer of the editor: the key decoder
(`editorReadKey`), the cursor model (`editorMoveCursor`), the frame renderer
(`abAppend`, `editorDrawRows`, `editorRefreshScreen`), the geometry resolver
(`getCursorPosition`, `getWindowSize`), the key dispatch
(`editorProcessKeypress`) and the terminal mode controller (`enableRawMode`,
`disableRawMode`).

Conventions.
* A byte is a `Nat` (taken modulo 256 where it is read into a `char`).
* A C `int` is an `Int`; no statement below relies on wrap-around.
* Terminal input is a list of outcomes of successive `read(STDIN_FILENO, _, 1)`
  calls; once the list is used up every further read times out.
* A byte string is a `List Nat`.
-/

namespace Kilo

/-! ## Terminal input -/

/-- Outcome of one `read(STDIN_FILENO, &c, 1)` call: one byte was read (the call
returns 1), the read timed out (returns 0), it failed with `errno == EAGAIN`
(returns -1), or it failed with another error (returns -1). -/
inductive ReadResult where
  | byte (b : Nat)
  | timeout
  | eagain
  | error
  deriving DecidableEq, Repr

/-- The pending outcomes of the reads still to come. -/
abbrev Input := List ReadResult

/-- How a call that reads the terminal ends: it returns a value and leaves the
rest of the input, it ends the process through `die`, or it never returns (the
first-byte wait loop polls for ever on an input that is used up). -/
inductive Outcome (α : Type) where
  | ret (v : α) (rest : Input)
  | died (msg : String)
  | hang
  deriving DecidableEq, Repr

/-- One read whose result is compared with 1, as in
`if (read(STDIN_FILENO, &seq[0], 1) != 1)`: the byte when the read returned 1,
`none` for every other return value. The outcome is consumed either way. -/
def read1 : Input → Option Nat × Input
  | [] => (none, [])
  | ReadResult.byte b :: rest => (some b, rest)
  | _ :: rest => (none, rest)

/-- The value of a byte stored in a `char` and promoted to `int`; `sgn` tells
whether plain `char` is signed on the platform. -/
def charVal (sgn : Bool) (b : Nat) : Int :=
  if sgn && decide (128 ≤ b % 256) then ((b % 256 : Nat) : Int) - 256 else ((b % 256 : Nat) : Int)

/-! ## Keys -/

def ARROW_UP : Int := 1000
def ARROW_DOWN : Int := 1001
def ARROW_LEFT : Int := 1002
def ARROW_RIGHT : Int := 1003
def DEL_KEY : Int := 1004
def HOME_KEY : Int := 1005
def END_KEY : Int := 1006
def PAGE_UP : Int := 1007
def PAGE_DOWN : Int := 1008

/-- The loop `while ((nread = read(STDIN_FILENO, &c, 1)) != 1)` of
`editorReadKey`: a timeout or an `EAGAIN` failure polls again, any other
failure calls `die("read")`. -/
def waitKey : Input → Outcome Nat
  | [] => Outcome.hang
  | ReadResult.byte b :: rest => Outcome.ret b rest
  | ReadResult.timeout :: rest => waitKey rest
  | ReadResult.eagain :: rest => waitKey rest
  | ReadResult.error :: _ => Outcome.died "read"

/-- The body of `editorReadKey` after the first byte `b` has been read, with
`inp` the input that is left. -/
def decodeKey (sgn : Bool) (b : Nat) (inp : Input) : Outcome Int :=
  let c := charVal sgn b
  if c = 27 then
    match read1 inp with
    | (none, i1) => Outcome.ret 27 i1
    | (some b0, i1) =>
      match read1 i1 with
      | (none, i2) => Outcome.ret 27 i2
      | (some b1, i2) =>
        let seq0 := charVal sgn b0
        let seq1 := charVal sgn b1
        if seq0 = 91 then -- '['
          if 48 ≤ seq1 ∧ seq1 ≤ 9 then -- seq[1] >= '0' && seq[1] <= 9
            match read1 i2 with
            | (none, i3) => Outcome.ret 27 i3
            | (some b2, i3) =>
              let seq2 := charVal sgn b2
              if seq2 = 126 then -- '~', then switch (seq[2])
                if seq2 = 49 then Outcome.ret HOME_KEY i3
                else if seq2 = 52 then Outcome.ret END_KEY i3
                else if seq2 = 51 then Outcome.ret DEL_KEY i3
                else if seq2 = 53 then Outcome.ret PAGE_UP i3
                else if seq2 = 54 then Outcome.ret PAGE_DOWN i3
                else if seq2 = 55 then Outcome.ret HOME_KEY i3
                else if seq2 = 56 then Outcome.ret END_KEY i3
                else Outcome.ret 27 i3
              else Outcome.ret 27 i3
          else -- switch (seq[1])
            if seq1 = 65 then Outcome.ret ARROW_UP i2
            else if seq1 = 66 then Outcome.ret ARROW_DOWN i2
            else if seq1 = 67 then Outcome.ret ARROW_RIGHT i2
            else if seq1 = 68 then Outcome.ret ARROW_LEFT i2
            else if seq1 = 72 then Outcome.ret HOME_KEY i2
            else if seq1 = 70 then Outcome.ret END_KEY i2
            else Outcome.ret 27 i2
        else if seq0 = 79 then -- 'O'
          if seq1 = 72 then Outcome.ret HOME_KEY i2
          else if seq1 = 70 then Outcome.ret END_KEY i2
          else Outcome.ret 27 i2
        else Outcome.ret 27 i2
  else Outcome.ret c inp

/-- The function `editorReadKey`: wait for the first byte, then decode. -/
def editorReadKey (sgn : Bool) (inp : Input) : Outcome Int :=
  match waitKey inp with
  | Outcome.ret b rest => decodeKey sgn b rest
  | Outcome.died msg => Outcome.died msg
  | Outcome.hang => Outcome.hang

/-- An input outcome that makes the first-byte loop poll again. -/
def isRetry : ReadResult → Bool
  | ReadResult.timeout => true
  | ReadResult.eagain => true
  | _ => false

/-- An input outcome that is not a byte: the read returned something other
than 1. -/
def noByte : ReadResult → Bool
  | ReadResult.byte _ => false
  | _ => true

/-! ## Editor state and cursor model -/

/-- The struct `erow`: one line of text, `size` bytes stored in `chars`. -/
structure erow where
  size : Int
  chars : List Nat
  deriving DecidableEq, Repr

/-- The struct `editorConfig` (the global `E`), without the saved terminal
attributes. -/
structure editorConfig where
  cursor_col : Int
  cursor_row : Int
  screenrows : Int
  screencols : Int
  numrows : Int
  row : erow
  deriving DecidableEq, Repr

/-- The function `editorMoveCursor`: the `switch (key)` over the four arrows. -/
def editorMoveCursor (key : Int) (E : editorConfig) : editorConfig :=
  if key = ARROW_LEFT then
    if E.cursor_col ≠ 0 then { E with cursor_col := E.cursor_col - 1 } else E
  else if key = ARROW_UP then
    if E.cursor_row ≠ 0 then { E with cursor_row := E.cursor_row - 1 } else E
  else if key = ARROW_DOWN then
    if E.cursor_row ≠ E.screenrows - 1 then { E with cursor_row := E.cursor_row + 1 } else E
  else if key = ARROW_RIGHT then
    if E.cursor_col ≠ E.screencols - 1 then { E with cursor_col := E.cursor_col + 1 } else E
  else E

/-- Applying `editorMoveCursor` to each key of a sequence in turn. -/
def moveCursorAll (keys : List Int) (E : editorConfig) : editorConfig :=
  keys.foldl (fun (st : editorConfig) (k : Int) => editorMoveCursor k st) E

/-- The cursor lies inside the viewport. -/
def cursorInView (E : editorConfig) : Prop :=
  0 ≤ E.cursor_row ∧ E.cursor_row ≤ E.screenrows - 1 ∧
  0 ≤ E.cursor_col ∧ E.cursor_col ≤ E.screencols - 1

/-! ## Append buffer and frame renderer -/

/-- The struct `abuf`: the bytes `b[0 .. len-1]`. -/
abbrev abuf := List Nat

/-- The initialiser `ABUF_INIT`. -/
def ABUF_INIT : abuf := []

/-- The function `abAppend`: the first `len` bytes of `s` are copied behind the
buffer. The `realloc` is taken to succeed (when it fails the C function returns
with the buffer unchanged). -/
def abAppend (ab : abuf) (s : List Nat) (len : Int) : abuf :=
  ab ++ s.take len.toNat

/-- The macro `KILO_VERSION`, the string "0.0.1". -/
def KILO_VERSION : List Nat := [48, 46, 48, 46, 49]

/-- What the format "Kilo editor --version %s" expands to with `KILO_VERSION`. -/
def welcomeFormat : List Nat :=
  [75, 105, 108, 111, 32, 101, 100, 105, 116, 111, 114, 32,
   45, 45, 118, 101, 114, 115, 105, 111, 110, 32] ++ KILO_VERSION

/-- The line-clear sequence `ESC [ K`. -/
def clearLine : List Nat := [27, 91, 75]

/-- The pair CR LF. -/
def crlf : List Nat := [13, 10]

/-- The loop `while (padding--) abAppend(ab, " ", 1);` for a count that is not
negative (the count reaching this loop never is, see `welcomePadding_nonneg`). -/
def padLoop : Nat → abuf → abuf
  | 0, ab => ab
  | n + 1, ab => padLoop n (abAppend ab [32] 1)

/-- The padding computed for the welcome row: `welcomelen` clamped to the
viewport width, then `(E.screencols - welcomelen) / 2` (C division). -/
def welcomePadding (E : editorConfig) : Int :=
  let welcomelen : Int := welcomeFormat.length
  let welcomelen := if welcomelen > E.screencols then E.screencols else welcomelen
  Int.tdiv (E.screencols - welcomelen) 2

/-- The first part of the loop body of `editorDrawRows` for row `y`: everything
before the line-clear is appended. -/
def drawRowContent (E : editorConfig) (y : Int) (ab : abuf) : abuf :=
  if y ≥ E.numrows then
    if E.numrows = 0 ∧ y = Int.tdiv E.screenrows 3 then
      -- snprintf(welcome, sizeof(welcome), ...) keeps at most 79 bytes and
      -- returns the length of the whole expansion
      let welcome := welcomeFormat.take 79
      let welcomelen : Int := welcomeFormat.length
      let welcomelen := if welcomelen > E.screencols then E.screencols else welcomelen
      let padding := Int.tdiv (E.screencols - welcomelen) 2
      let ab1 := if padding ≠ 0 then abAppend ab [126] 1 else ab
      let padding1 := if padding ≠ 0 then padding - 1 else padding
      let ab2 := padLoop padding1.toNat ab1
      abAppend ab2 welcome welcomelen
    else
      abAppend ab [126] 1
  else
    let len := E.row.size
    let len := if len > E.screencols then E.screencols else len
    abAppend ab E.row.chars len

/-- The whole loop body of `editorDrawRows` for row `y`. -/
def drawRow (E : editorConfig) (y : Int) (ab : abuf) : abuf :=
  let ab1 := drawRowContent E y ab
  let ab2 := abAppend ab1 clearLine 3
  if y < E.screenrows - 1 then abAppend ab2 crlf 2 else ab2

/-- The function `editorDrawRows`: the loop `for (y = 0; y < E.screenrows; y++)`. -/
def editorDrawRows (E : editorConfig) (ab : abuf) : abuf :=
  (List.range E.screenrows.toNat).foldl (fun (acc : abuf) (y : Nat) => drawRow E (y : Int) acc) ab

/-- What one pass of the loop body contributes for row `y`: the row's content,
the line-clear and, except on the last row, CR LF. -/
def rowSegment (E : editorConfig) (y : Nat) : List Nat :=
  drawRowContent E (y : Int) [] ++ clearLine ++ (if (y : Int) < E.screenrows - 1 then crlf else [])

/-- Decimal digits of a natural number, most significant first, as ASCII. -/
def decimal (n : Nat) : List Nat :=
  if n = 0 then [48] else (Nat.digits 10 n).reverse.map (fun d => d + 48)

/-- What the conversion `%d` prints for an `int`. -/
def fmtInt (n : Int) : List Nat :=
  if n < 0 then 45 :: decimal n.natAbs else decimal n.toNat

/-- The hide-cursor sequence `ESC [ ? 2 5 l`. -/
def hideCursor : List Nat := [27, 91, 63, 50, 53, 108]

/-- The show-cursor sequence `ESC [ ? 2 5 h`. -/
def showCursor : List Nat := [27, 91, 63, 50, 53, 104]

/-- The cursor-home sequence `ESC [ H`. -/
def cursorHome : List Nat := [27, 91, 72]

/-- The function `editorRefreshScreen`: the bytes handed to the single `write`. -/
def editorRefreshScreen (E : editorConfig) : List Nat :=
  let ab := ABUF_INIT
  let ab := abAppend ab hideCursor 6
  let ab := abAppend ab clearLine 3
  let ab := abAppend ab cursorHome 3
  let ab := editorDrawRows E ab
  -- snprintf(buf, sizeof(buf), "\x1b[%d;%dH", ...) keeps at most 31 bytes
  let buf := ([27, 91] ++ fmtInt (E.cursor_row + 1) ++ [59] ++ fmtInt (E.cursor_col + 1)
    ++ [72]).take 31
  let ab := abAppend ab buf buf.length
  let ab := abAppend ab showCursor 6
  ab

/-- Number of positions of `s` at which `pat` starts. -/
def countOcc (pat : List Nat) : List Nat → Nat
  | [] => if pat = [] then 1 else 0
  | c :: cs => (if pat.isPrefixOf (c :: cs) then 1 else 0) + countOcc pat cs

/-! ## Geometry resolver -/

/-- The terminal as the geometry resolver sees it: the pending read outcomes,
the pending `write` outcomes (`none`: the call returns -1; `some k`: at most `k`
bytes are written; once the list is used up every write is complete) and the
bytes written to standard output so far. -/
structure Tty where
  input : Input
  wres : List (Option Nat)
  output : List Nat
  deriving DecidableEq, Repr

/-- One call `write(STDOUT_FILENO, s, n)`: the return value and the terminal
afterwards. -/
def write (t : Tty) (s : List Nat) (n : Nat) : Int × Tty :=
  match t.wres with
  | [] => ((n : Int), { t with output := t.output ++ s.take n })
  | none :: ws => (-1, { t with wres := ws })
  | some k :: ws => ((min k n : Nat), { t with wres := ws, output := t.output ++ s.take (min k n) })

/-- The read loop of `getCursorPosition` with `n` iterations left
(`n = sizeof(buf) - 1 - i`): it stops on a read that returns no byte and on the
byte `R`; `buf` collects `buf[0 .. i-1]`. The `R` is stored in `buf[i]`, which
the caller overwrites with the terminator. -/
def readResponse : Nat → Input → List Nat → List Nat × Input
  | 0, inp, buf => (buf, inp)
  | n + 1, inp, buf =>
    match read1 inp with
    | (none, inp1) => (buf, inp1)
    | (some b, inp1) =>
      if b % 256 = 82 then (buf, inp1) else readResponse n inp1 (buf ++ [b % 256])

/-- The C function `isspace` in the "C" locale. -/
def isspace (c : Nat) : Bool := c == 32 || (decide (9 ≤ c) && decide (c ≤ 13))

/-- The C function `isdigit`. -/
def isdigit (c : Nat) : Bool := decide (48 ≤ c) && decide (c ≤ 57)

/-- A mathematical integer stored in a 32-bit `int` (two's complement). -/
def toInt32 (n : Int) : Int := (n + 2147483648) % 4294967296 - 2147483648

/-- The longest run of decimal digits at the head of the input, accumulated on
`acc`, and the input behind it. -/
def scanDigits : Nat → List Nat → Nat × List Nat
  | acc, [] => (acc, [])
  | acc, c :: cs => if isdigit c then scanDigits (acc * 10 + (c - 48)) cs else (acc, c :: cs)

/-- Result of one `%d` conversion of `sscanf`. -/
inductive Conv where
  | eof
  | fail
  | ok (v : Int) (rest : List Nat)
  deriving DecidableEq, Repr

/-- The conversion `%d` of the C library function `sscanf` on a string without
its terminator: white space is skipped, then an optional sign and at least one
digit are read. The end of the string before any character is an input failure
(`eof`), anything else that is not a number a matching failure. A value that
does not fit an `int` is stored reduced to 32 bits. -/
def scanInt (s : List Nat) : Conv :=
  match s.dropWhile isspace with
  | [] => Conv.eof
  | c :: cs =>
    let neg := c == 45
    let ds := if c = 45 ∨ c = 43 then cs else c :: cs
    match ds with
    | [] => Conv.fail
    | d :: _ =>
      if isdigit d then
        let r := scanDigits 0 ds
        Conv.ok (toInt32 (if neg then -(r.1 : Int) else (r.1 : Int))) r.2
      else Conv.fail

/-- The call `sscanf(s, "%d;%d", rows, cols)` of the C library: the return
value and the contents of `*rows` and `*cols` afterwards. -/
def sscanf2 (s : List Nat) (rows cols : Int) : Int × Int × Int :=
  match scanInt s with
  | Conv.eof => (-1, rows, cols)
  | Conv.fail => (0, rows, cols)
  | Conv.ok r rest =>
    match rest with
    | 59 :: rest1 =>
      match scanInt rest1 with
      | Conv.ok c _ => (2, r, c)
      | _ => (1, r, cols)
    | _ => (1, r, cols)

/-- The C string that starts at the head of a buffer: the bytes before the
first NUL. -/
def cstr (l : List Nat) : List Nat := l.takeWhile (fun c => c != 0)

/-- The cursor position report request `ESC [ 6 n`. -/
def reportRequest : List Nat := [27, 91, 54, 110]

/-- The part of `getCursorPosition` behind the read loop, on the bytes
`buf[0 .. i-1]` read: the terminator is stored in `buf[i]`, the first two bytes
are compared with ESC and `[`, and the rest is handed to `sscanf`. The result is
the return value with the contents of `*rows` and `*cols`. -/
def parseResponse (bytes : List Nat) (rows cols : Int) : Int × Int × Int :=
  let buf := bytes ++ [0]
  if buf.getD 0 0 ≠ 27 ∨ buf.getD 1 0 ≠ 91 then (-1, rows, cols)
  else
    let r := sscanf2 (cstr (buf.drop 2)) rows cols
    if r.1 ≠ 2 then (-1, r.2.1, r.2.2) else (0, r.2.1, r.2.2)

/-- The function `getCursorPosition`: the return value, the contents of `*rows`
and `*cols` afterwards, and the terminal afterwards. -/
def getCursorPosition (t : Tty) (rows cols : Int) : Int × Int × Int × Tty :=
  let w := write t reportRequest 4
  if w.1 ≠ 4 then (-1, rows, cols, w.2)
  else
    let rd := readResponse 31 w.2.input []
    let r := parseResponse rd.1 rows cols
    (r.1, r.2.1, r.2.2, { w.2 with input := rd.2 })

/-- The string literal that `getWindowSize` passes to `write`; only its first
12 bytes are written. -/
def maxPositionMove : List Nat := [27, 91, 57, 57, 57, 67, 27, 91, 57, 57, 57, 66, 93]

/-- The function `getWindowSize`. The outcome of the `ioctl(TIOCGWINSZ)` query
is `none` when the call returns -1 and `some (ws_row, ws_col)` otherwise. -/
def getWindowSize (ioctl : Option (Nat × Nat)) (t : Tty) (rows cols : Int) :
    Int × Int × Int × Tty :=
  let probe : Int × Int × Int × Tty :=
    let w := write t maxPositionMove 12
    if w.1 ≠ 12 then (-1, rows, cols, w.2) else getCursorPosition w.2 rows cols
  match ioctl with
  | none => probe
  | some (ws_row, ws_col) =>
    if ws_col = 0 then probe else (0, (ws_row : Int), (ws_col : Int), t)

/-- A viewport of one row and one column with no content line, cursor at the
origin. -/
def view1x1 : editorConfig :=
  { cursor_col := 0, cursor_row := 0, screenrows := 1, screencols := 1,
    numrows := 0, row := { size := 0, chars := [] } }

/-- A viewport of 24 rows and 80 columns with no content line, cursor in the
bottom-right corner. -/
def view24x80 : editorConfig :=
  { cursor_col := 79, cursor_row := 23, screenrows := 24, screencols := 80,
    numrows := 0, row := { size := 0, chars := [] } }

/-- A terminal with the given pending input, on which every write is complete
and nothing has been written yet. -/
def ttyOf (inp : Input) : Tty := { input := inp, wres := [], output := [] }

/-- The input made of successful reads of the given bytes. -/
def bytesIn (bs : List Nat) : Input := bs.map ReadResult.byte

/-! ## Key dispatch -/

/-- The macro `CTRL_KEY(k)`, `(k) & 0x1f`, on a character code. -/
def CTRL_KEY (k : Nat) : Int := ((k &&& 0x1f : Nat) : Int)

/-- The clear-screen sequence `ESC [ 2 J`. -/
def clearScreen : List Nat := [27, 91, 50, 74]

/-- How one pass of `editorProcessKeypress` ends: it returns with the editor
state and the terminal, it calls `exit(status)` (the handlers registered with
`atexit` run behind that call and are not part of the step), or it never
returns. -/
inductive Step where
  | next (E : editorConfig) (t : Tty)
  | exit (status : Int) (E : editorConfig) (t : Tty)
  | hang
  deriving DecidableEq, Repr

/-- The writes of the function `die`: clear-screen and cursor-home, their
results unchecked; the message of `perror` goes to standard error, which is not
part of the terminal model, and `exit(1)` follows. -/
def die (t : Tty) : Tty :=
  (write (write t clearScreen 4).2 cursorHome 3).2

/-- The body of the loop `while (times--) editorMoveCursor(key);` repeated `n`
times. -/
def moveTimes (key : Int) : Nat → editorConfig → editorConfig
  | 0, E => E
  | n + 1, E => moveTimes key n (editorMoveCursor key E)

/-- The `switch (c)` of `editorProcessKeypress` on the key `c` that was read.
For `PAGE_UP` and `PAGE_DOWN` the loop `while (times--)` starts at
`E.screenrows`; from a negative start it does not end before `times` overflows,
which is modelled as not returning. -/
def processKey (c : Int) (E : editorConfig) (t : Tty) : Step :=
  if c = CTRL_KEY 113 then -- CTRL_KEY('q')
    let t1 := (write t clearScreen 4).2
    let t2 := (write t1 cursorHome 3).2
    Step.exit 0 E t2
  else if c = PAGE_DOWN ∨ c = PAGE_UP then
    let times := E.screenrows
    if times < 0 then Step.hang
    else Step.next (moveTimes (if c = PAGE_UP then ARROW_UP else ARROW_DOWN) times.toNat E) t
  else if c = HOME_KEY then Step.next { E with cursor_col := 0 } t
  else if c = END_KEY then Step.next { E with cursor_col := E.screencols - 1 } t
  else if c = ARROW_UP ∨ c = ARROW_LEFT ∨ c = ARROW_RIGHT ∨ c = ARROW_DOWN then
    Step.next (editorMoveCursor c E) t
  else Step.next E t

/-- The function `editorProcessKeypress`: read a key from the terminal input,
then dispatch on it. A `die("read")` inside `editorReadKey` ends the process
with status 1. -/
def editorProcessKeypress (sgn : Bool) (E : editorConfig) (t : Tty) : Step :=
  match editorReadKey sgn t.input with
  | Outcome.ret c rest => processKey c E { t with input := rest }
  | Outcome.died _ => Step.exit 1 E (die t)
  | Outcome.hang => Step.hang

/-! ## Terminal mode controller -/

/-- The fields of `struct termios` that the program touches: the four flag
words (`tcflag_t`, 32 bits) and the control characters `c_cc`. -/
structure termios where
  c_iflag : Nat
  c_oflag : Nat
  c_cflag : Nat
  c_lflag : Nat
  c_cc : Nat → Nat

/-- The constants of `<termios.h>` that `enableRawMode` names. The header is
not part of the program, so they are parameters: the flag masks and the two
indices into `c_cc`. -/
structure TermiosConsts where
  BRKINT : Nat
  ICRNL : Nat
  INPCK : Nat
  ISTRIP : Nat
  IXON : Nat
  OPOST : Nat
  CS8 : Nat
  ECHO : Nat
  ICANON : Nat
  IEXTEN : Nat
  ISIG : Nat
  VMIN : Nat
  VTIME : Nat

/-- The assignment `flags &= ~(mask)` on a 32-bit flag word. -/
def clearFlags (flags mask : Nat) : Nat :=
  flags &&& (4294967295 ^^^ (mask % 4294967296))

/-- The attributes `raw` that `enableRawMode` computes from the captured ones. -/
def rawAttributes (K : TermiosConsts) (orig : termios) : termios :=
  let raw := orig
  let raw := { raw with
    c_iflag := clearFlags raw.c_iflag (K.BRKINT ||| K.ICRNL ||| K.INPCK ||| K.ISTRIP ||| K.IXON) }
  let raw := { raw with c_oflag := clearFlags raw.c_oflag K.OPOST }
  let raw := { raw with c_cflag := raw.c_cflag ||| K.CS8 }
  let raw := { raw with
    c_lflag := clearFlags raw.c_lflag (K.ECHO ||| K.ICANON ||| K.IEXTEN ||| K.ISIG) }
  let raw := { raw with c_cc := Function.update raw.c_cc K.VMIN 0 }
  let raw := { raw with c_cc := Function.update raw.c_cc K.VTIME 1 }
  raw

/-- The state the mode controller works on: the attributes the terminal has,
the saved `E.orig_termios`, and whether `disableRawMode` is registered with
`atexit`. -/
structure ModeState where
  attrs : termios
  orig_termios : termios
  registered : Bool

/-- How a call of the mode controller ends: it returns, or it calls `die`. -/
inductive ModeResult where
  | ok (s : ModeState)
  | died (msg : String) (s : ModeState)

/-- The function `enableRawMode`; `getOk` and `setOk` tell whether `tcgetattr`
and `tcsetattr` succeed. -/
def enableRawMode (K : TermiosConsts) (getOk setOk : Bool) (s : ModeState) : ModeResult :=
  if getOk = false then ModeResult.died "tcgetattr" s
  else
    let s1 := { s with orig_termios := s.attrs }
    let s2 := { s1 with registered := true }
    let raw := rawAttributes K s2.orig_termios
    if setOk = false then ModeResult.died "tcsetattr" s2
    else ModeResult.ok { s2 with attrs := raw }

/-- The function `disableRawMode`; `setOk` tells whether `tcsetattr` succeeds. -/
def disableRawMode (setOk : Bool) (s : ModeState) : ModeResult :=
  if setOk = false then ModeResult.died "tcsetattr" s
  else ModeResult.ok { s with attrs := s.orig_termios }

/-- The constants of `<termios.h>` as Linux defines them. -/
def linuxConsts : TermiosConsts :=
  { BRKINT := 2, ICRNL := 256, INPCK := 16, ISTRIP := 32, IXON := 1024, OPOST := 1,
    CS8 := 48, ECHO := 8, ICANON := 2, IEXTEN := 32768, ISIG := 1, VMIN := 6, VTIME := 5 }

/-- A cooked-mode attribute set: the usual flags of an interactive Linux
terminal, all control characters 0. -/
def cookedAttrs : termios :=
  { c_iflag := 17664, c_oflag := 5, c_cflag := 191, c_lflag := 35387, c_cc := fun _ => 0 }

/-- One content line "hello" loaded into a viewport of 3 rows and 4 columns. -/
def viewHello : editorConfig :=
  { cursor_col := 0, cursor_row := 0, screenrows := 3, screencols := 4,
    numrows := 1, row := { size := 5, chars := [104, 101, 108, 108, 111] } }

/-! ## Theorems -/

theorem waitKey_retry (pre : Input) (h : ∀ r ∈ pre, isRetry r = true) (b : Nat) (rest : Input) :
    waitKey (pre ++ ReadResult.byte b :: rest) = Outcome.ret b rest := by
  induction pre with
  | nil => rfl
  | cons r pre ih =>
    have hr := h r (List.mem_cons_self _ _)
    have ih2 := ih (fun x hx => h x (List.mem_cons_of_mem _ hx))
    cases r <;> simp_all [waitKey, isRetry]

/-- C1 (code as written): on ESC, `[`, a digit, `~` the decoder returns the bare
escape value 27 and leaves the `~` unread, for every digit 0..9; it never returns
DEL_KEY, HOME_KEY, END_KEY, PAGE_UP or PAGE_DOWN for these sequences. -/
theorem editorReadKey_digit_tilde (sgn : Bool) (d : Fin 10) (rest : Input) :
    editorReadKey sgn (ReadResult.byte 27 :: ReadResult.byte 91 :: ReadResult.byte (48 + d.val)
        :: ReadResult.byte 126 :: rest)
      = Outcome.ret 27 (ReadResult.byte 126 :: rest) := by
  cases sgn <;> fin_cases d <;> rfl

/-- C2: ESC `[` followed by a letter decodes to ARROW_UP for `A`, ARROW_DOWN for
`B`, ARROW_RIGHT for `C`, ARROW_LEFT for `D`, HOME_KEY for `H` and END_KEY for
`F`; ESC `O` followed by `H` decodes to HOME_KEY and by `F` to END_KEY. Exactly
the three bytes are consumed. -/
theorem editorReadKey_letters (sgn : Bool) (rest : Input) :
    editorReadKey sgn (bytesIn [27, 91, 65] ++ rest) = Outcome.ret ARROW_UP rest ∧
    editorReadKey sgn (bytesIn [27, 91, 66] ++ rest) = Outcome.ret ARROW_DOWN rest ∧
    editorReadKey sgn (bytesIn [27, 91, 67] ++ rest) = Outcome.ret ARROW_RIGHT rest ∧
    editorReadKey sgn (bytesIn [27, 91, 68] ++ rest) = Outcome.ret ARROW_LEFT rest ∧
    editorReadKey sgn (bytesIn [27, 91, 72] ++ rest) = Outcome.ret HOME_KEY rest ∧
    editorReadKey sgn (bytesIn [27, 91, 70] ++ rest) = Outcome.ret END_KEY rest ∧
    editorReadKey sgn (bytesIn [27, 79, 72] ++ rest) = Outcome.ret HOME_KEY rest ∧
    editorReadKey sgn (bytesIn [27, 79, 70] ++ rest) = Outcome.ret END_KEY rest := by
  cases sgn <;> exact ⟨rfl, rfl, rfl, rfl, rfl, rfl, rfl, rfl⟩

theorem editorMoveCursor_keeps (k : Int) (E : editorConfig) (h : cursorInView E) :
    cursorInView (editorMoveCursor k E) ∧
    (editorMoveCursor k E).screenrows = E.screenrows ∧
    (editorMoveCursor k E).screencols = E.screencols := by
  unfold cursorInView at *
  unfold editorMoveCursor
  split_ifs <;> simp <;> omega

/-- C3: from a cursor inside a viewport of at least one row and one column,
applying `editorMoveCursor` to every key of any finite sequence leaves the
cursor inside the viewport (and the viewport unchanged). -/
theorem moveCursorAll_in_view (keys : List Int) (E : editorConfig)
    (hr : 1 ≤ E.screenrows) (hc : 1 ≤ E.screencols) (h : cursorInView E) :
    cursorInView (moveCursorAll keys E) ∧
    (moveCursorAll keys E).screenrows = E.screenrows ∧
    (moveCursorAll keys E).screencols = E.screencols := by
  induction keys generalizing E with
  | nil => exact ⟨h, rfl, rfl⟩
  | cons k ks ih =>
    obtain ⟨h1, h2, h3⟩ := editorMoveCursor_keeps k E h
    have := ih (editorMoveCursor k E) (h2 ▸ hr) (h3 ▸ hc) h1
    simp only [moveCursorAll, List.foldl_cons] at this ⊢
    rw [h2, h3] at this
    exact this

/-- Witness for C3: a cursor in the bottom-right corner of a 24x80 viewport,
moved down once and right twice. -/
theorem moveCursorAll_in_view_witness :
    cursorInView view24x80 ∧
    cursorInView (moveCursorAll [ARROW_DOWN, ARROW_RIGHT, ARROW_RIGHT] view24x80) :=
  ⟨by unfold cursorInView; decide,
   (moveCursorAll_in_view [ARROW_DOWN, ARROW_RIGHT, ARROW_RIGHT] view24x80
      (by decide) (by decide) (by unfold cursorInView; decide)).1⟩

/-- C8: when the first byte obtained is ESC and the next read, or the one after
it, returns no byte, `editorReadKey` returns the bare escape value 27 and reads
nothing behind the read that failed; this also holds when the input ends there. -/
theorem editorReadKey_escape_timeout (sgn : Bool) (pre : Input)
    (hpre : ∀ r ∈ pre, isRetry r = true) (t : ReadResult) (ht : noByte t = true)
    (b : Nat) (rest : Input) :
    editorReadKey sgn (pre ++ ReadResult.byte 27 :: t :: rest) = Outcome.ret 27 rest ∧
    editorReadKey sgn (pre ++ ReadResult.byte 27 :: ReadResult.byte b :: t :: rest)
      = Outcome.ret 27 rest ∧
    editorReadKey sgn (pre ++ [ReadResult.byte 27]) = Outcome.ret 27 [] ∧
    editorReadKey sgn (pre ++ [ReadResult.byte 27, ReadResult.byte b]) = Outcome.ret 27 [] := by
  have hc : charVal sgn 27 = 27 := by cases sgn <;> rfl
  refine ⟨?_, ?_, ?_, ?_⟩
  · unfold editorReadKey
    rw [waitKey_retry pre hpre]
    cases t <;> simp_all [decodeKey, read1, noByte]
  · unfold editorReadKey
    rw [waitKey_retry pre hpre]
    cases t <;> simp_all [decodeKey, read1, noByte]
  · unfold editorReadKey
    rw [waitKey_retry pre hpre]
    simp [decodeKey, read1, hc]
  · unfold editorReadKey
    rw [waitKey_retry pre hpre]
    simp [decodeKey, read1, hc]

/-- Witness for C8: two polls without a byte, then ESC, `[` and a timeout. -/
theorem editorReadKey_escape_timeout_witness :
    editorReadKey true ([ReadResult.timeout, ReadResult.eagain] ++
      ReadResult.byte 27 :: ReadResult.byte 91 :: ReadResult.timeout :: [ReadResult.byte 65])
      = Outcome.ret 27 [ReadResult.byte 65] :=
  (editorReadKey_escape_timeout true [ReadResult.timeout, ReadResult.eagain]
    (by decide) ReadResult.timeout rfl 91 [ReadResult.byte 65]).2.1

/-! ### Frame renderer -/

theorem padLoop_eq (n : Nat) (ab : abuf) : padLoop n ab = ab ++ List.replicate n 32 := by
  induction n generalizing ab with
  | zero => simp [padLoop]
  | succ n ih =>
    simp [padLoop, ih, abAppend, List.replicate_succ]

theorem drawRowContent_append (E : editorConfig) (y : Int) (ab : abuf) :
    drawRowContent E y ab = ab ++ drawRowContent E y [] := by
  unfold drawRowContent
  simp only [padLoop_eq, abAppend]
  split_ifs <;> simp

theorem drawRow_eq (E : editorConfig) (y : Int) (ab : abuf) :
    drawRow E y ab = ab ++ (drawRowContent E y [] ++ clearLine ++
      (if y < E.screenrows - 1 then crlf else [])) := by
  unfold drawRow
  simp only [abAppend]
  rw [drawRowContent_append]
  split_ifs <;> simp [clearLine, crlf]

theorem foldl_drawRow (E : editorConfig) (ys : List Nat) (ab : abuf) :
    ys.foldl (fun (acc : abuf) (y : Nat) => drawRow E (y : Int) acc) ab
      = ab ++ ys.flatMap (rowSegment E) := by
  induction ys generalizing ab with
  | nil => simp
  | cons y ys ih =>
    rw [List.foldl_cons, ih, drawRow_eq, List.flatMap_cons]
    simp [rowSegment]

/-- The output of `editorDrawRows` is what was in the buffer followed by one
segment per viewport row. -/
theorem editorDrawRows_eq (E : editorConfig) (ab : abuf) :
    editorDrawRows E ab = ab ++ (List.range E.screenrows.toNat).flatMap (rowSegment E) :=
  foldl_drawRow E _ ab

theorem countOcc_skip (p : Nat) (ps l r : List Nat) (h : ∀ c ∈ l, c ≠ p) :
    countOcc (p :: ps) (l ++ r) = countOcc (p :: ps) r := by
  induction l with
  | nil => rfl
  | cons c l ih =>
    have hc : c ≠ p := h c (List.mem_cons_self _ _)
    have hc2 : p ≠ c := fun e => hc e.symm
    have := ih (fun x hx => h x (List.mem_cons_of_mem _ hx))
    simp [countOcc, List.isPrefixOf, hc2, this]

theorem countOcc_clear_clear (r : List Nat) :
    countOcc clearLine (clearLine ++ r) = 1 + countOcc clearLine r := by
  have h := countOcc_skip 27 [91, 75] [91, 75] r (by decide)
  simp only [clearLine, List.cons_append, List.nil_append] at h ⊢
  rw [countOcc, h]
  simp [List.isPrefixOf]

theorem countOcc_clear_crlf (r : List Nat) :
    countOcc clearLine (crlf ++ r) = countOcc clearLine r :=
  countOcc_skip 27 [91, 75] crlf r (by decide)

theorem countOcc_crlf_clear (r : List Nat) :
    countOcc crlf (clearLine ++ r) = countOcc crlf r :=
  countOcc_skip 13 [10] clearLine r (by decide)

theorem countOcc_crlf_crlf (r : List Nat) :
    countOcc crlf (crlf ++ r) = 1 + countOcc crlf r := by
  have h := countOcc_skip 13 [10] [10] r (by decide)
  simp only [crlf, List.cons_append, List.nil_append] at h ⊢
  rw [countOcc, h]
  simp [List.isPrefixOf]

theorem welcomeFormat_clean : ∀ c ∈ welcomeFormat, c ≠ 27 ∧ c ≠ 13 := by decide

theorem welcomeFormat_length : welcomeFormat.length = 27 := rfl

/-- The padding is never negative, and so neither is the count left for the
loop of spaces behind the `~`. -/
theorem welcomePadding_nonneg (E : editorConfig) :
    0 ≤ welcomePadding E ∧ (welcomePadding E ≠ 0 → 0 ≤ welcomePadding E - 1) := by
  have h : 0 ≤ welcomePadding E := by
    unfold welcomePadding
    simp only [welcomeFormat_length, Nat.cast_ofNat]
    apply Int.tdiv_nonneg
    · split_ifs <;> omega
    · omega
  exact ⟨h, fun h0 => by omega⟩

/-- With no content line, the content of row `y`, in the terms of the code. -/
theorem drawRowContent_empty (E : editorConfig) (hn : E.numrows = 0) (y : Nat) :
    drawRowContent E (y : Int) []
      = if (y : Int) = Int.tdiv E.screenrows 3 then
          (if welcomePadding E ≠ 0
            then 126 :: List.replicate (welcomePadding E - 1).toNat 32 else [])
          ++ welcomeFormat.take (min 27 E.screencols).toNat
        else [126] := by
  have hy : ((y : Int) ≥ 0) := Int.natCast_nonneg y
  unfold drawRowContent welcomePadding
  simp only [hn, hy, if_true, true_and, padLoop_eq, abAppend, welcomeFormat_length,
    List.nil_append, Nat.cast_ofNat]
  by_cases h3 : (y : Int) = Int.tdiv E.screenrows 3
  · simp only [h3, if_true]
    have hw : (if (27 : Int) > E.screencols then E.screencols else 27) = min 27 E.screencols := by
      split_ifs <;> omega
    rw [hw]
    have ht : List.take (min 27 E.screencols).toNat (List.take 79 welcomeFormat)
        = List.take (min 27 E.screencols).toNat welcomeFormat := by
      rw [List.take_take]
      congr 1
      omega
    rw [ht]
    by_cases hp : Int.tdiv (E.screencols - min 27 E.screencols) 2 = 0
    · simp [hp]
    · simp [hp]
  · simp [h3]

/-- With no content line, a row's content holds neither ESC nor CR. -/
theorem drawRowContent_clean (E : editorConfig) (hn : E.numrows = 0) (y : Nat) :
    ∀ c ∈ drawRowContent E (y : Int) [], c ≠ 27 ∧ c ≠ 13 := by
  intro c hc
  rw [drawRowContent_empty E hn y] at hc
  split_ifs at hc
  · simp only [List.mem_append, List.mem_cons] at hc
    rcases hc with (hc | hc) | hc
    · omega
    · have := List.eq_of_mem_replicate hc; omega
    · exact welcomeFormat_clean c (List.mem_of_mem_take hc)
  · simp only [List.nil_append] at hc
    exact welcomeFormat_clean c (List.mem_of_mem_take hc)
  · simp at hc; omega

theorem skip_clear (l r : List Nat) (h : ∀ c ∈ l, c ≠ 27) :
    countOcc clearLine (l ++ r) = countOcc clearLine r :=
  countOcc_skip 27 [91, 75] l r h

theorem skip_crlf (l r : List Nat) (h : ∀ c ∈ l, c ≠ 13) :
    countOcc crlf (l ++ r) = countOcc crlf r :=
  countOcc_skip 13 [10] l r h

theorem count_full_rows (E : editorConfig) (hn : E.numrows = 0) (ys : List Nat)
    (hys : ∀ y ∈ ys, (y : Int) < E.screenrows - 1) (r : List Nat) :
    countOcc clearLine (ys.flatMap (rowSegment E) ++ r) = ys.length + countOcc clearLine r ∧
    countOcc crlf (ys.flatMap (rowSegment E) ++ r) = ys.length + countOcc crlf r := by
  induction ys with
  | nil => simp
  | cons y ys ih =>
    have hy := hys y (List.mem_cons_self _ _)
    obtain ⟨ih1, ih2⟩ := ih (fun x hx => hys x (List.mem_cons_of_mem _ hx))
    have hclean := drawRowContent_clean E hn y
    simp only [List.flatMap_cons, rowSegment, hy, if_true, List.append_assoc, List.length_cons]
    constructor
    · rw [skip_clear _ _ (fun c hc => (hclean c hc).1)]
      rw [countOcc_clear_clear, countOcc_clear_crlf]
      rw [ih1]; omega
    · rw [skip_crlf _ _ (fun c hc => (hclean c hc).2)]
      rw [countOcc_crlf_clear, countOcc_crlf_crlf]
      rw [ih2]; omega

theorem not_crlf_suffix (X : List Nat) : ¬ crlf <:+ X ++ clearLine := by
  rw [← List.reverse_prefix]
  simp [crlf, clearLine]

/-- The rows split into the rows that end with CR LF and the last row. -/
theorem rows_split (E : editorConfig) (m : Nat) (hm : E.screenrows = (m : Int) + 1) :
    (List.range E.screenrows.toNat).flatMap (rowSegment E)
      = (List.range m).flatMap (rowSegment E) ++ (drawRowContent E (m : Int) [] ++ clearLine) := by
  have h1 : E.screenrows.toNat = m + 1 := by omega
  rw [h1, List.range_succ, List.flatMap_append, List.flatMap_singleton]
  have h2 : ¬ ((m : Int) < E.screenrows - 1) := by omega
  simp [rowSegment, h2]

/-- C5: with no content line, in a viewport of at least one row and one column,
the output of `editorDrawRows` is the concatenation of exactly `screenrows` row
segments, each the row's content followed by `ESC[K` and, except for the last
row, by CR LF; it holds exactly `screenrows` line-clears and `screenrows - 1`
CR LF pairs and does not end with CR LF. -/
theorem editorDrawRows_segments (E : editorConfig)
    (hr : 1 ≤ E.screenrows) (_hc : 1 ≤ E.screencols) (hn : E.numrows = 0) :
    editorDrawRows E ABUF_INIT
      = (List.range E.screenrows.toNat).flatMap
          (fun y => drawRowContent E (y : Int) [] ++ clearLine ++
            (if (y : Int) < E.screenrows - 1 then crlf else [])) ∧
    (List.range E.screenrows.toNat).length = E.screenrows ∧
    countOcc clearLine (editorDrawRows E ABUF_INIT) = E.screenrows ∧
    (countOcc crlf (editorDrawRows E ABUF_INIT) : Int) = E.screenrows - 1 ∧
    ¬ crlf <:+ editorDrawRows E ABUF_INIT := by
  obtain ⟨m, hm⟩ : ∃ m : Nat, E.screenrows = (m : Int) + 1 :=
    ⟨(E.screenrows - 1).toNat, by omega⟩
  have hout : editorDrawRows E ABUF_INIT
      = (List.range m).flatMap (rowSegment E) ++ (drawRowContent E (m : Int) [] ++ clearLine) := by
    rw [editorDrawRows_eq, rows_split E m hm]; rfl
  have hlt : ∀ y ∈ List.range m, (y : Int) < E.screenrows - 1 := by
    intro y hy
    have := List.mem_range.mp hy
    omega
  have hclean := drawRowContent_clean E hn m
  obtain ⟨c1, c2⟩ := count_full_rows E hn (List.range m) hlt
    (drawRowContent E (m : Int) [] ++ clearLine)
  refine ⟨?_, ?_, ?_, ?_, ?_⟩
  · rw [editorDrawRows_eq]; rfl
  · simp; omega
  · rw [hout, c1, skip_clear _ _ (fun c hc => (hclean c hc).1)]
    have := countOcc_clear_clear []
    simp only [List.append_nil] at this
    rw [this]
    simp [countOcc, hm, clearLine, crlf]
  · rw [hout, c2, skip_crlf _ _ (fun c hc => (hclean c hc).2)]
    have := countOcc_crlf_clear []
    simp only [List.append_nil] at this
    rw [this]
    simp [countOcc, hm, clearLine, crlf]
  · rw [hout, ← List.append_assoc]
    exact not_crlf_suffix _

/-- Witness for C5: the 24x80 viewport with no content line has 24 line-clears
and 23 CR LF pairs. -/
theorem editorDrawRows_segments_witness :
    (1 : Int) ≤ view24x80.screenrows ∧ (1 : Int) ≤ view24x80.screencols ∧
    view24x80.numrows = 0 ∧
    countOcc clearLine (editorDrawRows view24x80 ABUF_INIT) = (24 : Int) ∧
    (countOcc crlf (editorDrawRows view24x80 ABUF_INIT) : Int) = 24 - 1 ∧
    ¬ crlf <:+ editorDrawRows view24x80 ABUF_INIT :=
  ⟨by decide, by decide, rfl,
   (editorDrawRows_segments view24x80 (by decide) (by decide) rfl).2.2⟩

theorem abAppend_whole (ab : abuf) (s : List Nat) : abAppend ab s s.length = ab ++ s := by
  simp [abAppend]

theorem editorRefreshScreen_eq (E : editorConfig) :
    editorRefreshScreen E
      = hideCursor ++ (clearLine ++ (cursorHome ++ (editorDrawRows E ABUF_INIT ++
          (([27, 91] ++ fmtInt (E.cursor_row + 1) ++ [59] ++ fmtInt (E.cursor_col + 1)
            ++ [72]).take 31 ++ showCursor)))) := by
  unfold editorRefreshScreen
  simp only [abAppend_whole]
  simp only [abAppend, ABUF_INIT]
  rw [editorDrawRows_eq E (_ ++ _), editorDrawRows_eq E []]
  simp [hideCursor, clearLine, cursorHome, showCursor]

/-- C4 (as stated, refuted): for a 1x1 viewport the frame does not begin with
hide-cursor immediately followed by cursor-home and the rows. -/
theorem editorRefreshScreen_home_not_second :
    ¬ ∃ tail : List Nat,
      editorRefreshScreen view1x1
        = hideCursor ++ cursorHome ++ editorDrawRows view1x1 ABUF_INIT ++ tail := by
  rintro ⟨tail, h⟩
  rw [editorRefreshScreen_eq] at h
  simp [hideCursor, clearLine, cursorHome] at h

/-- C4 (amended): for every editor state the frame built by
`editorRefreshScreen` is hide-cursor `ESC[?25l`, then line-clear `ESC[K`, then
cursor-home `ESC[H`, then the output of `editorDrawRows`, with nothing in
between, followed by the rest of the frame. -/
theorem editorRefreshScreen_begins (E : editorConfig) :
    ∃ tail : List Nat,
      editorRefreshScreen E
        = hideCursor ++ clearLine ++ cursorHome ++ editorDrawRows E ABUF_INIT ++ tail :=
  ⟨([27, 91] ++ fmtInt (E.cursor_row + 1) ++ [59] ++ fmtInt (E.cursor_col + 1)
      ++ [72]).take 31 ++ showCursor, by rw [editorRefreshScreen_eq]; simp⟩

theorem welcomeFormat_text :
    welcomeFormat = ("Kilo editor --version 0.0.1").toList.map Char.toNat := by decide

/-- C10: with no content line, in a viewport of at least one row and one column,
the row at index `screenrows / 3` (a row of the viewport) has as content
`p = (screencols - w) / 2` padding columns, `w = min 27 screencols`, made of one
`~` and `p - 1` spaces when `p > 0` and of nothing when `p = 0`, followed by the
first `w` bytes of "Kilo editor --version 0.0.1"; its width is `p + w`, at most
`screencols`, and the space left on the right differs from `p` by at most one.
Every other row has the content `~`. -/
theorem editorDrawRows_welcome (E : editorConfig) (w p : Int)
    (hr : 1 ≤ E.screenrows) (hc : 1 ≤ E.screencols) (hn : E.numrows = 0)
    (hw : w = min 27 E.screencols) (hp : p = (E.screencols - w) / 2) :
    editorDrawRows E ABUF_INIT
      = (List.range E.screenrows.toNat).flatMap
          (fun y => drawRowContent E (y : Int) [] ++ clearLine ++
            (if (y : Int) < E.screenrows - 1 then crlf else [])) ∧
    (0 ≤ E.screenrows / 3 ∧ E.screenrows / 3 < E.screenrows) ∧
    (∀ y : Nat, (y : Int) = E.screenrows / 3 →
      drawRowContent E (y : Int) []
        = (if 0 < p then 126 :: List.replicate (p.toNat - 1) 32 else [])
          ++ (("Kilo editor --version 0.0.1").toList.map Char.toNat).take w.toNat ∧
      ((drawRowContent E (y : Int) []).length : Int) = p + w) ∧
    (∀ y : Nat, (y : Int) ≠ E.screenrows / 3 → drawRowContent E (y : Int) [] = [126]) ∧
    p + w ≤ E.screencols ∧
    |(E.screencols - (p + w)) - p| ≤ 1 := by
  have h3 : Int.tdiv E.screenrows 3 = E.screenrows / 3 :=
    Int.tdiv_eq_ediv (by omega) (by omega)
  have hpad : welcomePadding E = p := by
    unfold welcomePadding
    simp only [welcomeFormat_length, Nat.cast_ofNat]
    have e : (if (27 : Int) > E.screencols then E.screencols else 27) = w := by
      split_ifs <;> omega
    rw [e, hp]
    exact Int.tdiv_eq_ediv (by omega) (by omega)
  have hw0 : 0 ≤ w := by omega
  have hw27 : w ≤ 27 := by omega
  have hp0 : 0 ≤ p := by omega
  have hrow : ∀ y : Nat, (y : Int) = E.screenrows / 3 →
      drawRowContent E (y : Int) []
        = (if 0 < p then 126 :: List.replicate (p.toNat - 1) 32 else [])
          ++ (("Kilo editor --version 0.0.1").toList.map Char.toNat).take w.toNat := by
    intro y hy
    rw [drawRowContent_empty E hn y, h3, if_pos hy, hpad, ← welcomeFormat_text, ← hw]
    congr 1
    by_cases hpz : p = 0
    · simp [hpz]
    · have hpos : 0 < p := by omega
      have e : (p - 1).toNat = p.toNat - 1 := by omega
      simp [hpz, hpos, e]
  refine ⟨?_, ?_, ?_, ?_, ?_, ?_⟩
  · rw [editorDrawRows_eq]; rfl
  · omega
  · intro y hy
    refine ⟨hrow y hy, ?_⟩
    rw [hrow y hy, ← welcomeFormat_text]
    have hl : (List.take w.toNat welcomeFormat).length = w.toNat := by
      rw [List.length_take, welcomeFormat_length]; omega
    by_cases hpz : 0 < p
    · simp only [hpz, if_true, List.length_append, List.length_cons, List.length_replicate, hl]
      omega
    · simp only [hpz, if_false, List.length_append, List.length_nil, hl]
      omega
  · intro y hy
    rw [drawRowContent_empty E hn y, h3, if_neg hy]
  · omega
  · rw [abs_le]; omega

/-- Witness for C10: in the 24x80 viewport the banner is on row 8, behind one
`~` and 25 spaces. -/
theorem editorDrawRows_welcome_witness :
    (1 : Int) ≤ view24x80.screenrows ∧ (1 : Int) ≤ view24x80.screencols ∧
    view24x80.numrows = 0 ∧ (27 : Int) = min 27 view24x80.screencols ∧
    (26 : Int) = (view24x80.screencols - 27) / 2 ∧ ((8 : Nat) : Int) = view24x80.screenrows / 3 ∧
    drawRowContent view24x80 ((8 : Nat) : Int) []
      = 126 :: List.replicate 25 32 ++ ("Kilo editor --version 0.0.1").toList.map Char.toNat :=
  ⟨by decide, by decide, rfl, by decide, by decide, by decide,
   (((editorDrawRows_welcome view24x80 27 26 (by decide) (by decide) rfl (by decide)
      (by decide)).2.2.1 8 (by decide)).1).trans (by decide)⟩

/-! ### Geometry resolver -/

theorem write_input (t : Tty) (s : List Nat) (n : Nat) : (write t s n).2.input = t.input := by
  unfold write
  split <;> rfl

theorem bytesIn_cons (b : Nat) (bs : List Nat) :
    bytesIn (b :: bs) = ReadResult.byte b :: bytesIn bs := rfl

/-- The read loop stops at the terminator `R` and drops it. -/
theorem readResponse_terminated (bs : List Nat) (hR : ∀ b ∈ bs, b % 256 ≠ 82) (n : Nat)
    (hn : bs.length < n) (buf : List Nat) (tl : Input) :
    readResponse n (bytesIn bs ++ ReadResult.byte 82 :: tl) buf
      = (buf ++ bs.map (fun b => b % 256), tl) := by
  induction bs generalizing n buf with
  | nil =>
    obtain ⟨k, rfl⟩ : ∃ k, n = k + 1 := ⟨n - 1, by simp at hn; omega⟩
    simp [bytesIn, readResponse, read1]
  | cons b bs ih =>
    obtain ⟨k, rfl⟩ : ∃ k, n = k + 1 := ⟨n - 1, by simp at hn; omega⟩
    have hb := hR b (List.mem_cons_self _ _)
    have := ih (fun x hx => hR x (List.mem_cons_of_mem _ hx)) k
      (by simp at hn; omega) (buf ++ [b % 256])
    simp only [bytesIn_cons, List.cons_append, readResponse, read1, hb, if_false, this]
    simp

/-- The read loop stops at a read that returns no byte. -/
theorem readResponse_failed (bs : List Nat) (hR : ∀ b ∈ bs, b % 256 ≠ 82) (n : Nat)
    (hn : bs.length < n) (buf : List Nat) (tl : Input) (htl : (read1 tl).1 = none) :
    readResponse n (bytesIn bs ++ tl) buf
      = (buf ++ bs.map (fun b => b % 256), (read1 tl).2) := by
  induction bs generalizing n buf with
  | nil =>
    obtain ⟨k, rfl⟩ : ∃ k, n = k + 1 := ⟨n - 1, by simp at hn; omega⟩
    simp only [bytesIn, List.map_nil, List.nil_append, readResponse, List.append_nil]
    generalize read1 tl = q at htl
    obtain ⟨q1, q2⟩ := q
    simp only at htl
    subst htl
    rfl
  | cons b bs ih =>
    obtain ⟨k, rfl⟩ : ∃ k, n = k + 1 := ⟨n - 1, by simp at hn; omega⟩
    have hb := hR b (List.mem_cons_self _ _)
    have := ih (fun x hx => hR x (List.mem_cons_of_mem _ hx)) k
      (by simp at hn; omega) (buf ++ [b % 256])
    simp only [bytesIn_cons, List.cons_append, readResponse, read1, hb, if_false, this]
    simp

/-- The read loop stops when the buffer is full. -/
theorem readResponse_full (bs : List Nat) (hR : ∀ b ∈ bs, b % 256 ≠ 82)
    (buf : List Nat) (tl : Input) :
    readResponse bs.length (bytesIn bs ++ tl) buf = (buf ++ bs.map (fun b => b % 256), tl) := by
  induction bs generalizing buf with
  | nil => simp [bytesIn, readResponse]
  | cons b bs ih =>
    have hb := hR b (List.mem_cons_self _ _)
    have := ih (fun x hx => hR x (List.mem_cons_of_mem _ hx)) (buf ++ [b % 256])
    simp only [bytesIn_cons, List.cons_append, List.length_cons, readResponse, read1, hb,
      if_false, this]
    simp

theorem decimal_isdigit (n : Nat) : ∀ d ∈ decimal n, 48 ≤ d ∧ d ≤ 57 := by
  intro d hd
  unfold decimal at hd
  split_ifs at hd
  · simp at hd; omega
  · simp only [List.mem_map, List.mem_reverse] at hd
    obtain ⟨x, hx, rfl⟩ := hd
    have := Nat.digits_lt_base (by norm_num : 1 < 10) hx
    omega

theorem decimal_ne_nil (n : Nat) : decimal n ≠ [] := by
  unfold decimal
  split_ifs with h
  · simp
  · simp [Nat.digits_eq_nil_iff_eq_zero, h]

theorem scanDigits_stop (acc : Nat) (rest : List Nat)
    (h : ∀ c ∈ rest.head?, isdigit c = false) : scanDigits acc rest = (acc, rest) := by
  cases rest with
  | nil => rfl
  | cons c cs =>
    have := h c (by simp)
    simp [scanDigits, this]

theorem scanDigits_map (ds : List Nat) (hds : ∀ d ∈ ds, d < 10) (acc : Nat) (rest : List Nat) :
    scanDigits acc (ds.map (fun d => d + 48) ++ rest)
      = scanDigits (ds.foldl (fun a d => a * 10 + d) acc) rest := by
  induction ds generalizing acc with
  | nil => rfl
  | cons d ds ih =>
    have hd := hds d (List.mem_cons_self _ _)
    have h1 : isdigit (d + 48) = true := by simp [isdigit]; omega
    simp only [List.map_cons, List.cons_append, scanDigits, h1, if_true, List.foldl_cons,
      Nat.add_sub_cancel]
    exact ih (fun x hx => hds x (List.mem_cons_of_mem _ hx)) _

theorem foldl_digits (l : List Nat) :
    l.reverse.foldl (fun a d => a * 10 + d) 0 = Nat.ofDigits 10 l := by
  rw [List.foldl_reverse]
  induction l with
  | nil => rfl
  | cons d l ih =>
    simp only [List.foldr_cons, Nat.ofDigits_cons, ih]
    omega

/-- Scanning the decimal digits of `n` gives `n` back. -/
theorem scanDigits_decimal (n : Nat) (rest : List Nat)
    (h : ∀ c ∈ rest.head?, isdigit c = false) : scanDigits 0 (decimal n ++ rest) = (n, rest) := by
  unfold decimal
  split_ifs with h0
  · subst h0
    simp only [List.cons_append, List.nil_append, scanDigits]
    simpa [isdigit] using scanDigits_stop 0 rest h
  · rw [scanDigits_map _ (by
      intro d hd
      exact Nat.digits_lt_base (by norm_num) (List.mem_reverse.mp hd)), foldl_digits,
      Nat.ofDigits_digits]
    exact scanDigits_stop n rest h

theorem toInt32_small (n : Nat) (h : n < 2147483648) : toInt32 (n : Int) = n := by
  unfold toInt32
  omega

theorem scanInt_decimal (n : Nat) (rest : List Nat)
    (h : ∀ c ∈ rest.head?, isdigit c = false) :
    scanInt (decimal n ++ rest) = Conv.ok (toInt32 (n : Int)) rest := by
  obtain ⟨d, ds, hd⟩ := List.exists_cons_of_ne_nil (decimal_ne_nil n)
  have hdig := decimal_isdigit n d (by rw [hd]; simp)
  have hs := scanDigits_decimal n rest h
  rw [hd] at hs ⊢
  have hsp : isspace d = false := by
    simp [isspace]; omega
  have h45 : d ≠ 45 := by omega
  have h43 : d ≠ 43 := by omega
  have hdg : isdigit d = true := by simp [isdigit]; omega
  unfold scanInt
  simp only [List.cons_append, List.dropWhile_cons, hsp]
  simp [h45, h43, hdg]
  rw [List.cons_append] at hs
  rw [hs]
  simp

theorem sscanf2_decimal (r c : Nat) (rows cols : Int) :
    sscanf2 (decimal r ++ 59 :: decimal c) rows cols
      = (2, toInt32 (r : Int), toInt32 (c : Int)) := by
  unfold sscanf2
  rw [scanInt_decimal r (59 :: decimal c) (by simp [isdigit])]
  have := scanInt_decimal c [] (by simp)
  simp only [List.append_nil] at this
  simp [this]

theorem cstr_terminated (l tl : List Nat) (h : ∀ c ∈ l, c ≠ 0) : cstr (l ++ 0 :: tl) = l := by
  unfold cstr
  rw [List.takeWhile_append_of_pos (by
    intro a ha
    simpa using h a ha)]
  simp

theorem parseResponse_decimal (r c : Nat) (rows cols : Int) :
    parseResponse ([27, 91] ++ decimal r ++ [59] ++ decimal c) rows cols
      = (0, toInt32 (r : Int), toInt32 (c : Int)) := by
  have hnz : ∀ x ∈ decimal r ++ 59 :: decimal c, x ≠ 0 := by
    intro x hx
    simp only [List.mem_append, List.mem_cons] at hx
    rcases hx with hx | hx | hx
    · have := decimal_isdigit r x hx; omega
    · omega
    · have := decimal_isdigit c x hx; omega
  have hcs : cstr (decimal r ++ 59 :: (decimal c ++ [0])) = decimal r ++ 59 :: decimal c := by
    have := cstr_terminated (decimal r ++ 59 :: decimal c) [] hnz
    simpa using this
  unfold parseResponse
  simp [hcs, sscanf2_decimal]

/-- C7: when the request `ESC[6n` is written and the terminal answers
ESC `[` decimal(r) `;` decimal(c) `R` with `r` and `c` fitting a 32-bit `int` and
the answer at most 31 bytes long, `getCursorPosition` returns 0 with
`*rows = r` and `*cols = c`, and has consumed exactly the answer. -/
theorem getCursorPosition_report (t : Tty) (r c : Nat) (rows cols : Int) (rest : Input)
    (hr : r < 2 ^ 31) (hc : c < 2 ^ 31)
    (hlen : ([27, 91] ++ decimal r ++ [59] ++ decimal c ++ [82]).length ≤ 31)
    (hw : (write t reportRequest 4).1 = 4)
    (hin : t.input = bytesIn ([27, 91] ++ decimal r ++ [59] ++ decimal c ++ [82]) ++ rest) :
    getCursorPosition t rows cols
      = (0, (r : Int), (c : Int), { (write t reportRequest 4).2 with input := rest }) := by
  have hmem : ∀ b ∈ [27, 91] ++ decimal r ++ [59] ++ decimal c, b < 256 ∧ b ≠ 82 := by
    intro b hb
    simp only [List.mem_append, List.mem_cons, List.mem_singleton, List.not_mem_nil,
      or_false, or_assoc] at hb
    rcases hb with hb | hb | hb | hb | hb
    · omega
    · omega
    · have := decimal_isdigit r b hb; omega
    · omega
    · have := decimal_isdigit c b hb; omega
  have hmap : ([27, 91] ++ decimal r ++ [59] ++ decimal c).map (fun b => b % 256)
      = [27, 91] ++ decimal r ++ [59] ++ decimal c := by
    conv_rhs => rw [← List.map_id ([27, 91] ++ decimal r ++ [59] ++ decimal c)]
    apply List.map_congr_left
    intro b hb
    exact Nat.mod_eq_of_lt (hmem b hb).1
  have hrd : readResponse 31 (write t reportRequest 4).2.input []
      = ([27, 91] ++ decimal r ++ [59] ++ decimal c, rest) := by
    rw [write_input, hin]
    have hsplit : bytesIn ([27, 91] ++ decimal r ++ [59] ++ decimal c ++ [82]) ++ rest
        = bytesIn ([27, 91] ++ decimal r ++ [59] ++ decimal c) ++ ReadResult.byte 82 :: rest := by
      simp [bytesIn]
    rw [hsplit, readResponse_terminated _ (fun b hb => by
      have := hmem b hb
      omega) 31 (by simp at hlen ⊢; omega), hmap]
    simp
  unfold getCursorPosition
  simp only [hw, ne_eq, not_true_eq_false, if_false, hrd, parseResponse_decimal]
  rw [toInt32_small r (by omega), toInt32_small c (by omega)]

/-- Witness for C7: the answer `ESC[40;120R` gives rows = 40 and cols = 120. -/
theorem getCursorPosition_report_witness :
    getCursorPosition (ttyOf (bytesIn [27, 91, 52, 48, 59, 49, 50, 48, 82])) 0 0
      = (0, 40, 120, { input := [], wres := [], output := [27, 91, 54, 110] }) :=
  (getCursorPosition_report (ttyOf (bytesIn [27, 91, 52, 48, 59, 49, 50, 48, 82]))
    40 120 0 0 [] (by norm_num) (by norm_num) (by simp [decimal]) rfl
    (by simp [decimal, ttyOf])).trans (by rfl)

theorem cstr_append_nul (l : List Nat) : cstr (l ++ [0]) = cstr l := by
  unfold cstr
  induction l with
  | nil => simp
  | cons c l ih =>
    simp only [List.cons_append, List.takeWhile_cons, ih]

/-- The checks behind the read loop, in terms of the bytes read. -/
theorem parseResponse_eq (bytes : List Nat) (rows cols : Int) :
    parseResponse bytes rows cols
      = if bytes.take 2 = [27, 91] then
          (if (sscanf2 (cstr (bytes.drop 2)) rows cols).1 ≠ 2 then
            (-1, (sscanf2 (cstr (bytes.drop 2)) rows cols).2.1,
              (sscanf2 (cstr (bytes.drop 2)) rows cols).2.2)
          else (0, (sscanf2 (cstr (bytes.drop 2)) rows cols).2.1,
              (sscanf2 (cstr (bytes.drop 2)) rows cols).2.2))
        else (-1, rows, cols) := by
  unfold parseResponse
  match bytes with
  | [] => simp
  | [a] => simp
  | a :: b :: l =>
    simp only [List.cons_append, List.getD_cons_zero, List.getD_cons_succ, List.drop_succ_cons,
      List.drop_zero, List.take_succ_cons, List.take_zero, cstr_append_nul]
    by_cases ha : a = 27 <;> by_cases hb : b = 91 <;> simp [ha, hb]

/-- C6 (as stated, refuted): the answer ESC `[` 40 `;` 120 followed by a read
that times out holds no `R`, and `getCursorPosition` returns 0 with rows = 40
and cols = 120. -/
theorem getCursorPosition_unterminated_accepted :
    (82 ∉ [27, 91, 52, 48, 59, 49, 50, 48]) ∧
    getCursorPosition
        (ttyOf (bytesIn [27, 91, 52, 48, 59, 49, 50, 48] ++ [ReadResult.timeout])) 0 0
      = (0, 40, 120, { input := [], wres := [], output := [27, 91, 54, 110] }) := by
  decide

/-- C6 (amended): when no `R` occurs among the bytes `getCursorPosition` reads
(31 bytes, or fewer followed by a read that returns no byte), it consumes those
reads only and returns -1 exactly when the bytes read do not begin with ESC `[`
or the text behind them does not scan as two integers separated by `;`;
otherwise it returns 0 and stores the two integers. A missing `R` alone is no
error. -/
theorem getCursorPosition_no_terminator (t : Tty) (rows cols : Int) (bs bytes : List Nat)
    (tl : Input) (hw : (write t reportRequest 4).1 = 4)
    (hin : t.input = bytesIn bs ++ tl) (hR : ∀ b ∈ bs, b % 256 ≠ 82)
    (hstop : bs.length = 31 ∨ (bs.length < 31 ∧ (read1 tl).1 = none))
    (hb : bytes = bs.map (fun b => b % 256)) :
    ((getCursorPosition t rows cols).1 = -1 ↔
      (bytes.take 2 ≠ [27, 91] ∨ (sscanf2 (cstr (bytes.drop 2)) rows cols).1 ≠ 2)) ∧
    ((getCursorPosition t rows cols).1 ≠ -1 →
      (getCursorPosition t rows cols).1 = 0 ∧
      (getCursorPosition t rows cols).2.1 = (sscanf2 (cstr (bytes.drop 2)) rows cols).2.1 ∧
      (getCursorPosition t rows cols).2.2.1 = (sscanf2 (cstr (bytes.drop 2)) rows cols).2.2) ∧
    (getCursorPosition t rows cols).2.2.2.input
      = (if bs.length = 31 then tl else (read1 tl).2) := by
  have hrd : readResponse 31 (write t reportRequest 4).2.input []
      = (bytes, if bs.length = 31 then tl else (read1 tl).2) := by
    rw [write_input, hin, hb]
    rcases hstop with h31 | ⟨hlt, hnone⟩
    · have := readResponse_full bs hR [] tl
      rw [h31] at this
      simp [this, h31]
    · have := readResponse_failed bs hR 31 hlt [] tl hnone
      have hne : bs.length ≠ 31 := by omega
      simp [this, hne]
  have hg : getCursorPosition t rows cols
      = ((parseResponse bytes rows cols).1, (parseResponse bytes rows cols).2.1,
          (parseResponse bytes rows cols).2.2,
          { (write t reportRequest 4).2 with
              input := if bs.length = 31 then tl else (read1 tl).2 }) := by
    unfold getCursorPosition
    simp only [hw, ne_eq, not_true_eq_false, if_false, hrd]
  rw [hg, parseResponse_eq]
  by_cases h1 : bytes.take 2 = [27, 91]
  · by_cases h2 : (sscanf2 (cstr (bytes.drop 2)) rows cols).1 = 2
    · simp [h1, h2]
    · simp [h1, h2]
  · simp [h1]

/-- Witness for C6: the input ends behind ESC `[` 5 `;` 7 without an `R`; the
call is not rejected, returns 0 and leaves no input. -/
theorem getCursorPosition_no_terminator_witness :
    (∀ b ∈ [27, 91, 53, 59, 55], b % 256 ≠ 82) ∧
    (getCursorPosition (ttyOf (bytesIn [27, 91, 53, 59, 55])) 0 0).1 = 0 ∧
    (getCursorPosition (ttyOf (bytesIn [27, 91, 53, 59, 55])) 0 0).2.2.2.input = [] :=
  ⟨by decide,
   ((getCursorPosition_no_terminator (ttyOf (bytesIn [27, 91, 53, 59, 55])) 0 0
      [27, 91, 53, 59, 55] [27, 91, 53, 59, 55] [] rfl rfl (by decide)
      (Or.inr ⟨by decide, rfl⟩) rfl).2.1 (by decide)).1,
   (getCursorPosition_no_terminator (ttyOf (bytesIn [27, 91, 53, 59, 55])) 0 0
      [27, 91, 53, 59, 55] [27, 91, 53, 59, 55] [] rfl rfl (by decide)
      (Or.inr ⟨by decide, rfl⟩) rfl).2.2.trans (by rfl)⟩

/-- C9 (as stated, refuted): a direct query that reports 0 rows and 80 columns
makes `getWindowSize` return 0 with rows = 0; and the probe answer `ESC[0;0R`
makes it return 0 with rows = 0 and cols = 0. -/
theorem getWindowSize_rows_not_positive :
    getWindowSize (some (0, 80)) (ttyOf []) 24 80 = (0, 0, 80, ttyOf []) ∧
    getWindowSize none (ttyOf (bytesIn [27, 91, 48, 59, 48, 82])) 24 80
      = (0, 0, 0, { ttyOf [] with
          output := [27, 91, 57, 57, 57, 67, 27, 91, 57, 57, 57, 66, 27, 91, 54, 110] }) := by
  decide

/-- C9 (amended): whenever `getWindowSize` returns 0, either the direct query
succeeded with `ws_col ≠ 0`, and then it stores rows = `ws_row ≥ 0` and
cols = `ws_col > 0` and leaves the terminal untouched, or the direct query
failed or reported `ws_col = 0`, the 12 bytes of the move were written, and the
result is the one of `getCursorPosition` on the probe answer. -/
theorem getWindowSize_success (ioctl : Option (Nat × Nat)) (t : Tty) (rows cols : Int)
    (h : (getWindowSize ioctl t rows cols).1 = 0) :
    (∃ r c : Nat, ioctl = some (r, c) ∧ c ≠ 0 ∧
      getWindowSize ioctl t rows cols = (0, (r : Int), (c : Int), t) ∧
      (0 : Int) ≤ (getWindowSize ioctl t rows cols).2.1 ∧
      (0 : Int) < (getWindowSize ioctl t rows cols).2.2.1) ∨
    ((ioctl = none ∨ ∃ r : Nat, ioctl = some (r, 0)) ∧
      (write t maxPositionMove 12).1 = 12 ∧
      getWindowSize ioctl t rows cols
        = getCursorPosition (write t maxPositionMove 12).2 rows cols) := by
  have hprobe : ∀ (res : Int × Int × Int × Tty),
      res = (if (write t maxPositionMove 12).1 ≠ 12
          then (-1, rows, cols, (write t maxPositionMove 12).2)
          else getCursorPosition (write t maxPositionMove 12).2 rows cols) →
      res.1 = 0 →
      (write t maxPositionMove 12).1 = 12 ∧
        res = getCursorPosition (write t maxPositionMove 12).2 rows cols := by
    intro res hres h0
    by_cases hw : (write t maxPositionMove 12).1 = 12
    · simp only [hw, ne_eq, not_true_eq_false, if_false] at hres
      exact ⟨hw, hres⟩
    · simp only [hw, ne_eq, not_false_eq_true, if_true] at hres
      rw [hres] at h0
      simp at h0
  match ioctl, h with
  | none, h =>
    right
    exact ⟨Or.inl rfl, hprobe _ rfl h⟩
  | some (r, c), h =>
    by_cases hc : c = 0
    · subst hc
      right
      refine ⟨Or.inr ⟨r, rfl⟩, hprobe _ ?_ h⟩
      simp [getWindowSize]
    · left
      refine ⟨r, c, rfl, hc, ?_⟩
      have hg : getWindowSize (some (r, c)) t rows cols = (0, (r : Int), (c : Int), t) := by
        simp [getWindowSize, hc]
      rw [hg]
      refine ⟨rfl, ?_, ?_⟩
      · exact Int.natCast_nonneg r
      · simp only
        omega

/-- Witness for C9: a direct query that reports 24 rows and 80 columns. -/
theorem getWindowSize_success_witness :
    (getWindowSize (some (24, 80)) (ttyOf []) 0 0).1 = 0 ∧
    ((∃ r c : Nat, some ((24 : Nat), (80 : Nat)) = some (r, c) ∧ c ≠ 0 ∧
      getWindowSize (some (24, 80)) (ttyOf []) 0 0 = (0, (r : Int), (c : Int), ttyOf []) ∧
      (0 : Int) ≤ (getWindowSize (some (24, 80)) (ttyOf []) 0 0).2.1 ∧
      (0 : Int) < (getWindowSize (some (24, 80)) (ttyOf []) 0 0).2.2.1) ∨
    ((some ((24 : Nat), (80 : Nat)) = none ∨
        ∃ r : Nat, some ((24 : Nat), (80 : Nat)) = some (r, 0)) ∧
      (write (ttyOf []) maxPositionMove 12).1 = 12 ∧
      getWindowSize (some (24, 80)) (ttyOf []) 0 0
        = getCursorPosition (write (ttyOf []) maxPositionMove 12).2 0 0)) :=
  ⟨rfl, getWindowSize_success (some (24, 80)) (ttyOf []) 0 0 rfl⟩

/-! ### Key decoder, continued -/

theorem charVal_small (sgn : Bool) (b : Nat) (h : b < 128) : charVal sgn b = (b : Int) := by
  have h1 : b % 256 = b := Nat.mod_eq_of_lt (by omega)
  have h2 : ¬ (128 ≤ b) := by omega
  simp [charVal, h1, h2]

theorem charVal_range (sgn : Bool) (b : Nat) : -128 ≤ charVal sgn b ∧ charVal sgn b ≤ 255 := by
  unfold charVal
  split_ifs with h
  · simp only [Bool.and_eq_true, decide_eq_true_eq] at h
    omega
  · omega

theorem charVal_eq_iff (sgn : Bool) (b k : Nat) (hk : k < 128) :
    charVal sgn b = (k : Int) ↔ b % 256 = k := by
  unfold charVal
  split_ifs with h
  · simp only [Bool.and_eq_true, decide_eq_true_eq] at h
    omega
  · omega

/-- C11: when the first byte obtained is a byte `b` of 0x00..0x7F other than
0x1B, `editorReadKey` returns the integer `b` and consumes that byte only
(behind the polls that brought no byte). -/
theorem editorReadKey_plain (sgn : Bool) (pre : Input) (hpre : ∀ r ∈ pre, isRetry r = true)
    (b : Nat) (hb : b < 128) (hesc : b ≠ 27) (rest : Input) :
    editorReadKey sgn (pre ++ ReadResult.byte b :: rest) = Outcome.ret (b : Int) rest := by
  unfold editorReadKey
  rw [waitKey_retry pre hpre]
  have hc := charVal_small sgn b hb
  have hne : ¬ ((b : Int) = 27) := by omega
  simp [decodeKey, hc, hne]

/-- Witness for C11: the printable byte `a` behind one timeout. -/
theorem editorReadKey_plain_witness :
    editorReadKey true ([ReadResult.timeout] ++ ReadResult.byte 97 :: [ReadResult.byte 98])
      = Outcome.ret 97 [ReadResult.byte 98] :=
  editorReadKey_plain true [ReadResult.timeout] (by decide) 97 (by decide) (by decide)
    [ReadResult.byte 98]

theorem charVal_ne (sgn : Bool) (b k : Nat) (hk : k < 128) (h : b % 256 ≠ k) :
    charVal sgn b ≠ (k : Int) :=
  fun e => h ((charVal_eq_iff sgn b k hk).mp e)

theorem charVal_esc (sgn : Bool) : charVal sgn 27 = 27 := by cases sgn <;> rfl

theorem charVal_bracket (sgn : Bool) : charVal sgn 91 = 91 := by cases sgn <;> rfl

theorem charVal_O (sgn : Bool) : charVal sgn 79 = 79 := by cases sgn <;> rfl

/-- C14: a stream that starts with ESC and matches no sequence of the grammar
decodes to the bare escape value 27, as a normal return: when the byte behind
ESC is neither `[` nor `O` (one more read is consumed), when it is `[` followed
by a non-digit byte outside A, B, C, D, H, F, and when it is `O` followed by a
byte outside H, F. -/
theorem editorReadKey_unrecognised (sgn : Bool) (pre : Input)
    (hpre : ∀ r ∈ pre, isRetry r = true) (x y : Nat) (rest : Input) :
    (x % 256 ≠ 91 → x % 256 ≠ 79 →
      editorReadKey sgn (pre ++ ReadResult.byte 27 :: ReadResult.byte x :: rest)
        = Outcome.ret 27 (read1 rest).2) ∧
    (¬ (48 ≤ y % 256 ∧ y % 256 ≤ 57) → y % 256 ∉ [65, 66, 67, 68, 72, 70] →
      editorReadKey sgn (pre ++ ReadResult.byte 27 :: ReadResult.byte 91 :: ReadResult.byte y
          :: rest)
        = Outcome.ret 27 rest) ∧
    (y % 256 ∉ [72, 70] →
      editorReadKey sgn (pre ++ ReadResult.byte 27 :: ReadResult.byte 79 :: ReadResult.byte y
          :: rest)
        = Outcome.ret 27 rest) := by
  have h27 := charVal_esc sgn
  have h91 := charVal_bracket sgn
  have h79 := charVal_O sgn
  have hr := charVal_range sgn y
  refine ⟨?_, ?_, ?_⟩
  · intro hx1 hx2
    have c1 : charVal sgn x ≠ 91 := by exact_mod_cast charVal_ne sgn x 91 (by norm_num) hx1
    have c2 : charVal sgn x ≠ 79 := by exact_mod_cast charVal_ne sgn x 79 (by norm_num) hx2
    unfold editorReadKey
    rw [waitKey_retry pre hpre]
    rcases rest with _ | ⟨r, rest⟩
    · simp [decodeKey, h27, read1]
    · cases r <;> simp [decodeKey, h27, read1, c1, c2]
  · intro _ hy
    simp only [List.mem_cons, List.mem_singleton, List.not_mem_nil, or_false, not_or] at hy
    obtain ⟨y1, y2, y3, y4, y5, y6⟩ := hy
    have d1 : charVal sgn y ≠ 65 := by exact_mod_cast charVal_ne sgn y 65 (by norm_num) y1
    have d2 : charVal sgn y ≠ 66 := by exact_mod_cast charVal_ne sgn y 66 (by norm_num) y2
    have d3 : charVal sgn y ≠ 67 := by exact_mod_cast charVal_ne sgn y 67 (by norm_num) y3
    have d4 : charVal sgn y ≠ 68 := by exact_mod_cast charVal_ne sgn y 68 (by norm_num) y4
    have d5 : charVal sgn y ≠ 72 := by exact_mod_cast charVal_ne sgn y 72 (by norm_num) y5
    have d6 : charVal sgn y ≠ 70 := by exact_mod_cast charVal_ne sgn y 70 (by norm_num) y6
    have dd : ¬ (48 ≤ charVal sgn y ∧ charVal sgn y ≤ 9) := by omega
    unfold editorReadKey
    rw [waitKey_retry pre hpre]
    simp [decodeKey, h27, h91, read1, d1, d2, d3, d4, d5, d6, dd]
  · intro hy
    simp only [List.mem_cons, List.mem_singleton, List.not_mem_nil, or_false, not_or] at hy
    obtain ⟨y5, y6⟩ := hy
    have d5 : charVal sgn y ≠ 72 := by exact_mod_cast charVal_ne sgn y 72 (by norm_num) y5
    have d6 : charVal sgn y ≠ 70 := by exact_mod_cast charVal_ne sgn y 70 (by norm_num) y6
    unfold editorReadKey
    rw [waitKey_retry pre hpre]
    simp [decodeKey, h27, h79, read1, d5, d6]

/-- Witness for C14: ESC `x` `y`, ESC `[` `Z` and ESC `O` `Q` all decode to 27. -/
theorem editorReadKey_unrecognised_witness :
    editorReadKey false ([] ++ ReadResult.byte 27 :: ReadResult.byte 120
        :: [ReadResult.byte 121, ReadResult.byte 122])
      = Outcome.ret 27 [ReadResult.byte 122] ∧
    editorReadKey false ([] ++ ReadResult.byte 27 :: ReadResult.byte 91 :: ReadResult.byte 90
        :: [ReadResult.byte 121, ReadResult.byte 122])
      = Outcome.ret 27 [ReadResult.byte 121, ReadResult.byte 122] ∧
    editorReadKey false ([] ++ ReadResult.byte 27 :: ReadResult.byte 79 :: ReadResult.byte 90
        :: [ReadResult.byte 121, ReadResult.byte 122])
      = Outcome.ret 27 [ReadResult.byte 121, ReadResult.byte 122] :=
  ⟨(editorReadKey_unrecognised false [] (by decide) 120 90
      [ReadResult.byte 121, ReadResult.byte 122]).1 (by decide) (by decide),
   (editorReadKey_unrecognised false [] (by decide) 120 90
      [ReadResult.byte 121, ReadResult.byte 122]).2.1 (by decide) (by decide),
   (editorReadKey_unrecognised false [] (by decide) 120 90
      [ReadResult.byte 121, ReadResult.byte 122]).2.2 (by decide)⟩

/-- The first-byte loop returns only on a byte that follows polls without a
byte. -/
theorem waitKey_shape (inp : Input) (b : Nat) (rest : Input)
    (h : waitKey inp = Outcome.ret b rest) :
    ∃ pre : Input, inp = pre ++ ReadResult.byte b :: rest ∧ ∀ r ∈ pre, isRetry r = true := by
  induction inp with
  | nil => simp [waitKey] at h
  | cons r inp ih =>
    cases r with
    | byte c =>
      simp only [waitKey, Outcome.ret.injEq] at h
      obtain ⟨h1, h2⟩ := h
      subst h1 h2
      exact ⟨[], rfl, by simp⟩
    | timeout =>
      simp only [waitKey] at h
      obtain ⟨pre, e, hp⟩ := ih h
      refine ⟨ReadResult.timeout :: pre, by simp [e], ?_⟩
      intro x hx
      rcases List.mem_cons.mp hx with rfl | hx
      · rfl
      · exact hp x hx
    | eagain =>
      simp only [waitKey] at h
      obtain ⟨pre, e, hp⟩ := ih h
      refine ⟨ReadResult.eagain :: pre, by simp [e], ?_⟩
      intro x hx
      rcases List.mem_cons.mp hx with rfl | hx
      · rfl
      · exact hp x hx
    | error => simp [waitKey] at h

/-- What the decoder can return once the first byte `b` is there, and how much
of the input behind it is consumed. -/
theorem decodeKey_spec (sgn : Bool) (b : Nat) (tail : Input) :
    ∃ (v : Int) (k : Nat), decodeKey sgn b tail = Outcome.ret v (tail.drop k) ∧ k ≤ 2 ∧
      v ∈ [charVal sgn b, 27, ARROW_UP, ARROW_DOWN, ARROW_LEFT, ARROW_RIGHT,
        HOME_KEY, END_KEY] := by
  unfold decodeKey
  by_cases hc : charVal sgn b = 27
  · simp only [hc, if_true]
    rcases tail with _ | ⟨r0, t1⟩
    · exact ⟨27, 0, rfl, by norm_num, by simp [ARROW_UP, ARROW_DOWN, ARROW_LEFT, ARROW_RIGHT, HOME_KEY, END_KEY]⟩
    · cases r0 with
      | byte b0 =>
        rcases t1 with _ | ⟨r1, t2⟩
        · exact ⟨27, 2, rfl, by norm_num, by simp [ARROW_UP, ARROW_DOWN, ARROW_LEFT, ARROW_RIGHT, HOME_KEY, END_KEY]⟩
        · cases r1 with
          | byte b1 =>
            have hd : ¬ (48 ≤ charVal sgn b1 ∧ charVal sgn b1 ≤ 9) := by omega
            simp only [read1]
            rw [if_neg hd]
            split_ifs <;>
              exact ⟨_, 2, rfl, by norm_num, by
                simp [ARROW_UP, ARROW_DOWN, ARROW_LEFT, ARROW_RIGHT, HOME_KEY, END_KEY]⟩
          | timeout => exact ⟨27, 2, rfl, by norm_num, by simp [ARROW_UP, ARROW_DOWN, ARROW_LEFT, ARROW_RIGHT, HOME_KEY, END_KEY]⟩
          | eagain => exact ⟨27, 2, rfl, by norm_num, by simp [ARROW_UP, ARROW_DOWN, ARROW_LEFT, ARROW_RIGHT, HOME_KEY, END_KEY]⟩
          | error => exact ⟨27, 2, rfl, by norm_num, by simp [ARROW_UP, ARROW_DOWN, ARROW_LEFT, ARROW_RIGHT, HOME_KEY, END_KEY]⟩
      | timeout => exact ⟨27, 1, rfl, by norm_num, by simp [ARROW_UP, ARROW_DOWN, ARROW_LEFT, ARROW_RIGHT, HOME_KEY, END_KEY]⟩
      | eagain => exact ⟨27, 1, rfl, by norm_num, by simp [ARROW_UP, ARROW_DOWN, ARROW_LEFT, ARROW_RIGHT, HOME_KEY, END_KEY]⟩
      | error => exact ⟨27, 1, rfl, by norm_num, by simp [ARROW_UP, ARROW_DOWN, ARROW_LEFT, ARROW_RIGHT, HOME_KEY, END_KEY]⟩
  · simp only [hc, if_false]
    exact ⟨_, 0, rfl, by norm_num, by simp [ARROW_UP, ARROW_DOWN, ARROW_LEFT, ARROW_RIGHT, HOME_KEY, END_KEY]⟩

theorem not_special_key (sgn : Bool) (b : Nat) (v : Int)
    (h : v ∈ [charVal sgn b, 27, ARROW_UP, ARROW_DOWN, ARROW_LEFT, ARROW_RIGHT,
      HOME_KEY, END_KEY]) :
    v ≠ DEL_KEY ∧ v ≠ PAGE_UP ∧ v ≠ PAGE_DOWN := by
  have hr := charVal_range sgn b
  simp only [List.mem_cons, List.mem_singleton, List.not_mem_nil, or_false, ARROW_UP,
    ARROW_DOWN, ARROW_LEFT, ARROW_RIGHT, HOME_KEY, END_KEY] at h
  simp only [DEL_KEY, PAGE_UP, PAGE_DOWN]
  omega

/-- C20: whatever the input, a value returned by `editorReadKey` is never
DEL_KEY, PAGE_UP or PAGE_DOWN: it is the first byte read (as a `char` value),
the bare escape 27, or one of ARROW_UP, ARROW_DOWN, ARROW_LEFT, ARROW_RIGHT,
HOME_KEY, END_KEY, and at most two reads behind the first byte are consumed.
Once a first byte arrives behind polls without a byte, the call does return. -/
theorem editorReadKey_results (sgn : Bool) (inp : Input) :
    (∀ (v : Int) (rest : Input), editorReadKey sgn inp = Outcome.ret v rest →
      v ≠ DEL_KEY ∧ v ≠ PAGE_UP ∧ v ≠ PAGE_DOWN ∧
      ∃ (pre : Input) (b : Nat) (tail : Input) (k : Nat),
        inp = pre ++ ReadResult.byte b :: tail ∧ (∀ r ∈ pre, isRetry r = true) ∧
        k ≤ 2 ∧ rest = tail.drop k ∧
        v ∈ [charVal sgn b, 27, ARROW_UP, ARROW_DOWN, ARROW_LEFT, ARROW_RIGHT,
          HOME_KEY, END_KEY]) ∧
    (∀ (pre : Input) (b : Nat) (tail : Input),
      inp = pre ++ ReadResult.byte b :: tail → (∀ r ∈ pre, isRetry r = true) →
      ∃ (v : Int) (k : Nat), k ≤ 2 ∧ editorReadKey sgn inp = Outcome.ret v (tail.drop k)) := by
  constructor
  · intro v rest h
    unfold editorReadKey at h
    cases hw : waitKey inp with
    | ret b tail =>
      rw [hw] at h
      simp only at h
      obtain ⟨pre, e, hp⟩ := waitKey_shape inp b tail hw
      obtain ⟨v2, k, hd, hk, hv⟩ := decodeKey_spec sgn b tail
      rw [hd] at h
      simp only [Outcome.ret.injEq] at h
      obtain ⟨h1, h2⟩ := h
      subst h1
      obtain ⟨n1, n2, n3⟩ := not_special_key sgn b v2 hv
      exact ⟨n1, n2, n3, pre, b, tail, k, e, hp, hk, h2.symm, hv⟩
    | died msg => rw [hw] at h; simp at h
    | hang => rw [hw] at h; simp at h
  · intro pre b tail e hp
    obtain ⟨v, k, hd, hk, _⟩ := decodeKey_spec sgn b tail
    refine ⟨v, k, hk, ?_⟩
    unfold editorReadKey
    rw [e, waitKey_retry pre hp]
    exact hd

/-- Witness for C20: ESC `[` `3` `~` returns 27, not DEL_KEY. -/
theorem editorReadKey_results_witness :
    editorReadKey true (bytesIn [27, 91, 51, 126]) = Outcome.ret 27 (bytesIn [126]) ∧
    (27 : Int) ≠ DEL_KEY ∧ (27 : Int) ≠ PAGE_UP ∧ (27 : Int) ≠ PAGE_DOWN :=
  ⟨by decide,
   ((editorReadKey_results true (bytesIn [27, 91, 51, 126])).1 27 (bytesIn [126])
      (by decide)).1,
   ((editorReadKey_results true (bytesIn [27, 91, 51, 126])).1 27 (bytesIn [126])
      (by decide)).2.1,
   ((editorReadKey_results true (bytesIn [27, 91, 51, 126])).1 27 (bytesIn [126])
      (by decide)).2.2.1⟩

/-! ### Frame renderer, continued -/

theorem decimal_length_le (n : Nat) (h : n < 2 ^ 31) : (decimal n).length ≤ 10 := by
  unfold decimal
  split_ifs with h0
  · simp
  · simp only [List.length_map, List.length_reverse]
    by_contra hlen
    have h11 : 11 ≤ (Nat.digits 10 n).length := by omega
    have h1 := Nat.base_pow_length_digits_le 10 n (by norm_num) h0
    have h2 : 10 ^ 11 ≤ 10 ^ (Nat.digits 10 n).length :=
      Nat.pow_le_pow_right (by norm_num) h11
    have h3 : (10 : Nat) ^ 11 = 100000000000 := by norm_num
    have h4 : (2 : Nat) ^ 31 = 2147483648 := by norm_num
    omega

theorem fmtInt_pos (n : Int) (h : 0 ≤ n) : fmtInt n = decimal n.toNat := by
  unfold fmtInt
  have : ¬ n < 0 := by omega
  simp [this]

/-- C12: for a cursor with `cursor_row ≥ 0` and `cursor_col ≥ 0` (and
`cursor_row + 1`, `cursor_col + 1` still an `int`), the frame built by
`editorRefreshScreen` ends with ESC `[` decimal(cursor_row + 1) `;`
decimal(cursor_col + 1) `H` followed by show-cursor `ESC[?25h`, and that
position sequence comes directly behind the output of `editorDrawRows`. -/
theorem editorRefreshScreen_ends (E : editorConfig)
    (hr : 0 ≤ E.cursor_row) (hc : 0 ≤ E.cursor_col)
    (hr2 : E.cursor_row + 1 < 2 ^ 31) (hc2 : E.cursor_col + 1 < 2 ^ 31) :
    ∃ pre : List Nat,
      editorRefreshScreen E
        = pre ++ editorDrawRows E ABUF_INIT
          ++ ([27, 91] ++ decimal (E.cursor_row + 1).toNat ++ [59]
              ++ decimal (E.cursor_col + 1).toNat ++ [72])
          ++ showCursor := by
  refine ⟨hideCursor ++ clearLine ++ cursorHome, ?_⟩
  have l1 := decimal_length_le (E.cursor_row + 1).toNat (by
    have : (2 : Nat) ^ 31 = 2147483648 := by norm_num
    have : (2 : Int) ^ 31 = 2147483648 := by norm_num
    omega)
  have l2 := decimal_length_le (E.cursor_col + 1).toNat (by
    have : (2 : Nat) ^ 31 = 2147483648 := by norm_num
    have : (2 : Int) ^ 31 = 2147483648 := by norm_num
    omega)
  rw [editorRefreshScreen_eq, fmtInt_pos _ (by omega), fmtInt_pos _ (by omega)]
  rw [List.take_of_length_le (by
    simp only [List.length_append, List.length_cons, List.length_nil]
    omega)]
  simp

/-- Witness for C12: the cursor in the bottom-right corner of the 24x80
viewport is placed with `ESC[24;80H`. -/
theorem editorRefreshScreen_ends_witness :
    (0 : Int) ≤ view24x80.cursor_row ∧ (0 : Int) ≤ view24x80.cursor_col ∧
    ∃ pre : List Nat,
      editorRefreshScreen view24x80
        = pre ++ editorDrawRows view24x80 ABUF_INIT
          ++ ([27, 91] ++ decimal (view24x80.cursor_row + 1).toNat ++ [59]
              ++ decimal (view24x80.cursor_col + 1).toNat ++ [72])
          ++ showCursor :=
  ⟨by decide, by decide,
   editorRefreshScreen_ends view24x80 (by decide) (by decide) (by decide) (by decide)⟩

/-- C15: with one content line of `size` bytes loaded (`numrows = 1`) in a
viewport of at least one row and one column, row 0 of `editorDrawRows` has as
content the first `min size screencols` bytes of the line, never wider than
the viewport, and every later row has the content `~`. -/
theorem editorDrawRows_content_line (E : editorConfig)
    (hr : 1 ≤ E.screenrows) (hc : 1 ≤ E.screencols) (hn : E.numrows = 1)
    (hsz : E.row.size = (E.row.chars.length : Int)) :
    editorDrawRows E ABUF_INIT
      = (List.range E.screenrows.toNat).flatMap
          (fun y => drawRowContent E (y : Int) [] ++ clearLine ++
            (if (y : Int) < E.screenrows - 1 then crlf else [])) ∧
    (0 : Int) < E.screenrows ∧
    drawRowContent E 0 [] = E.row.chars.take (min E.row.size E.screencols).toNat ∧
    ((drawRowContent E 0 []).length : Int) = min E.row.size E.screencols ∧
    ((drawRowContent E 0 []).length : Int) ≤ E.screencols ∧
    (∀ y : Nat, 1 ≤ y → drawRowContent E (y : Int) [] = [126]) := by
  have h0 : drawRowContent E 0 [] = E.row.chars.take (min E.row.size E.screencols).toNat := by
    unfold drawRowContent
    have e : (if E.row.size > E.screencols then E.screencols else E.row.size)
        = min E.row.size E.screencols := by
      split_ifs <;> omega
    simp [hn, abAppend, e]
  have hlen : ((drawRowContent E 0 []).length : Int) = min E.row.size E.screencols := by
    rw [h0, List.length_take]
    omega
  refine ⟨?_, by omega, h0, hlen, by omega, ?_⟩
  · rw [editorDrawRows_eq]; rfl
  · intro y hy
    unfold drawRowContent
    have h1 : ((y : Int) ≥ E.numrows) := by omega
    have h2 : ¬ (E.numrows = 0 ∧ (y : Int) = Int.tdiv E.screenrows 3) := by omega
    rw [if_pos h1, if_neg h2]
    simp [abAppend]

/-- Witness for C15: the line "hello" in a viewport of 3 rows and 4 columns
shows as "hell". -/
theorem editorDrawRows_content_line_witness :
    (1 : Int) ≤ viewHello.screenrows ∧ (1 : Int) ≤ viewHello.screencols ∧
    viewHello.numrows = 1 ∧
    drawRowContent viewHello 0 [] = [104, 101, 108, 108] :=
  ⟨by decide, by decide, rfl,
   ((editorDrawRows_content_line viewHello (by decide) (by decide) rfl rfl).2.2.1).trans
     (by decide)⟩

/-! ### Geometry resolver, continued -/

/-- The read loop only adds bytes behind those already in the buffer. -/
theorem readResponse_extends (n : Nat) (inp : Input) (buf : List Nat) :
    ∃ l : List Nat, (readResponse n inp buf).1 = buf ++ l := by
  induction n generalizing inp buf with
  | zero => exact ⟨[], by simp [readResponse]⟩
  | succ n ih =>
    rcases inp with _ | ⟨r, inp⟩
    · exact ⟨[], by simp [readResponse, read1]⟩
    · cases r with
      | byte b =>
        by_cases hb : b % 256 = 82
        · exact ⟨[], by simp [readResponse, read1, hb]⟩
        · obtain ⟨l, hl⟩ := ih inp (buf ++ [b % 256])
          exact ⟨b % 256 :: l, by simp [readResponse, read1, hb, hl]⟩
      | timeout => exact ⟨[], by simp [readResponse, read1]⟩
      | eagain => exact ⟨[], by simp [readResponse, read1]⟩
      | error => exact ⟨[], by simp [readResponse, read1]⟩

theorem readResponse_byte (n b : Nat) (inp : Input) (buf : List Nat) :
    readResponse (n + 1) (ReadResult.byte b :: inp) buf
      = if b % 256 = 82 then (buf, inp) else readResponse n inp (buf ++ [b % 256]) := rfl

/-- The bytes read from an answer that starts with two bytes other than ESC
`[` do not start with ESC `[`. -/
theorem readResponse_bad_start (b0 b1 : Nat) (rest : Input)
    (hbad : ¬ (b0 % 256 = 27 ∧ b1 % 256 = 91)) :
    (readResponse 31 (ReadResult.byte b0 :: ReadResult.byte b1 :: rest) []).1.take 2
      ≠ [27, 91] := by
  rw [show (31 : Nat) = 30 + 1 from rfl, readResponse_byte]
  by_cases h0 : b0 % 256 = 82
  · rw [if_pos h0]
    simp
  · rw [if_neg h0, show (30 : Nat) = 29 + 1 from rfl, readResponse_byte]
    by_cases h1 : b1 % 256 = 82
    · rw [if_pos h1]
      simp
    · rw [if_neg h1]
      obtain ⟨l, hl⟩ := readResponse_extends 29 rest ([] ++ [b0 % 256] ++ [b1 % 256])
      rw [hl]
      simp only [List.nil_append, List.cons_append, List.take_succ_cons, List.take_zero]
      intro h
      simp only [List.cons.injEq, and_true] at h
      exact hbad h

/-- C13: when the answer has at least two bytes and its first two bytes are
not ESC followed by `[`, `getCursorPosition` returns -1 and leaves `*rows` and
`*cols` as they were. -/
theorem getCursorPosition_bad_start (t : Tty) (rows cols : Int) (b0 b1 : Nat) (rest : Input)
    (hin : t.input = ReadResult.byte b0 :: ReadResult.byte b1 :: rest)
    (hbad : ¬ (b0 % 256 = 27 ∧ b1 % 256 = 91)) :
    (getCursorPosition t rows cols).1 = -1 ∧
    (getCursorPosition t rows cols).2.1 = rows ∧
    (getCursorPosition t rows cols).2.2.1 = cols := by
  unfold getCursorPosition
  by_cases hw : (write t reportRequest 4).1 = 4
  · have hb := readResponse_bad_start b0 b1 rest hbad
    simp only [hw, ne_eq, not_true_eq_false, if_false, write_input, hin, parseResponse_eq,
      if_neg hb, and_self]
  · simp only [hw, ne_eq, not_false_eq_true, if_true, and_self]

/-- Witness for C13: the answer `[[40;120R` is rejected and the geometry 24x80
held before stays. -/
theorem getCursorPosition_bad_start_witness :
    ¬ ((91 : Nat) % 256 = 27 ∧ (91 : Nat) % 256 = 91) ∧
    (getCursorPosition (ttyOf (bytesIn [91, 91, 52, 48, 59, 49, 50, 48, 82])) 24 80).1 = -1 ∧
    (getCursorPosition (ttyOf (bytesIn [91, 91, 52, 48, 59, 49, 50, 48, 82])) 24 80).2.1 = 24 ∧
    (getCursorPosition (ttyOf (bytesIn [91, 91, 52, 48, 59, 49, 50, 48, 82])) 24 80).2.2.1
      = 80 :=
  ⟨by decide,
   getCursorPosition_bad_start (ttyOf (bytesIn [91, 91, 52, 48, 59, 49, 50, 48, 82])) 24 80
     91 91 (bytesIn [52, 48, 59, 49, 50, 48, 82]) rfl (by decide)⟩

/-- A write that returns the whole count has put that many bytes on the
output. -/
theorem write_whole (t : Tty) (s : List Nat) (n : Nat) (h : (write t s n).1 = (n : Int)) :
    (write t s n).2.output = t.output ++ s.take n := by
  unfold write at h ⊢
  split at h
  · rfl
  · simp at h
  · rename_i k ws _
    simp only at h
    have : min k n = n := by omega
    simp [this]

/-- C19: when the direct window-size query fails or reports zero columns and
both writes are complete, the bytes written by `getWindowSize` and
`getCursorPosition` are exactly `ESC[999C`, `ESC[999B` and then `ESC[6n`, and
nothing else. -/
theorem getWindowSize_probe_output (ioctl : Option (Nat × Nat)) (t : Tty) (rows cols : Int)
    (hq : ioctl = none ∨ ∃ r : Nat, ioctl = some (r, 0))
    (hw1 : (write t maxPositionMove 12).1 = 12)
    (hw2 : (write (write t maxPositionMove 12).2 reportRequest 4).1 = 4) :
    (getWindowSize ioctl t rows cols).2.2.2.output
      = t.output ++ [27, 91, 57, 57, 57, 67] ++ [27, 91, 57, 57, 57, 66] ++ [27, 91, 54, 110] := by
  have e1 := write_whole t maxPositionMove 12 hw1
  have e2 := write_whole (write t maxPositionMove 12).2 reportRequest 4 hw2
  have hg : getWindowSize ioctl t rows cols
      = getCursorPosition (write t maxPositionMove 12).2 rows cols := by
    rcases hq with rfl | ⟨r, rfl⟩ <;> simp [getWindowSize, hw1]
  rw [hg]
  unfold getCursorPosition
  simp only [hw2, ne_eq, not_true_eq_false, if_false, e2, e1]
  simp [maxPositionMove, reportRequest]

/-- Witness for C19: a failed direct query on a terminal that answers
`ESC[40;120R`. -/
theorem getWindowSize_probe_output_witness :
    (getWindowSize none (ttyOf (bytesIn [27, 91, 52, 48, 59, 49, 50, 48, 82])) 0 0).2.2.2.output
      = [27, 91, 57, 57, 57, 67, 27, 91, 57, 57, 57, 66, 27, 91, 54, 110] :=
  (getWindowSize_probe_output none (ttyOf (bytesIn [27, 91, 52, 48, 59, 49, 50, 48, 82])) 0 0
    (Or.inl rfl) rfl rfl).trans (by decide)

/-! ### Key dispatch -/

theorem CTRL_KEY_q : CTRL_KEY 113 = 17 := by decide

theorem write_with_input (t : Tty) (r : Input) (s : List Nat) (n : Nat) :
    write { t with input := r } s n
      = ((write t s n).1, { (write t s n).2 with input := r }) := by
  unfold write
  rcases hw : t.wres with _ | ⟨_ | k, ws⟩ <;> simp [hw]

/-- C16: `CTRL_KEY('q')` is 0x11, and when the key read is the byte 0x11 (both
writes being complete) `editorProcessKeypress` writes `ESC[2J`, then `ESC[H`,
nothing else, and calls `exit(0)` with the editor state, cursor included, as it
was. -/
theorem editorProcessKeypress_quit (sgn : Bool) (E : editorConfig) (t : Tty) (pre : Input)
    (hpre : ∀ r ∈ pre, isRetry r = true) (rest : Input)
    (hin : t.input = pre ++ ReadResult.byte 17 :: rest)
    (hw1 : (write t clearScreen 4).1 = 4)
    (hw2 : (write (write t clearScreen 4).2 cursorHome 3).1 = 3) :
    CTRL_KEY 113 = 0x11 ∧
    editorProcessKeypress sgn E t
      = Step.exit 0 E { (write (write t clearScreen 4).2 cursorHome 3).2 with input := rest } ∧
    (write (write t clearScreen 4).2 cursorHome 3).2.output
      = t.output ++ [27, 91, 50, 74] ++ [27, 91, 72] := by
  have e1 := write_whole t clearScreen 4 hw1
  have e2 := write_whole (write t clearScreen 4).2 cursorHome 3 hw2
  refine ⟨CTRL_KEY_q, ?_, ?_⟩
  · unfold editorProcessKeypress
    rw [hin, editorReadKey_plain sgn pre hpre 17 (by norm_num) (by norm_num) rest]
    simp only [processKey, Nat.cast_ofNat, CTRL_KEY_q, if_true]
    rw [write_with_input t rest clearScreen 4]
    simp only
    rw [write_with_input (write t clearScreen 4).2 rest cursorHome 3]
  · rw [e2, e1]
    simp [clearScreen, cursorHome]

/-- Witness for C16: Ctrl-Q typed into the 24x80 editor. -/
theorem editorProcessKeypress_quit_witness :
    editorProcessKeypress true view24x80 (ttyOf ([] ++ ReadResult.byte 17 :: []))
      = Step.exit 0 view24x80
          { input := [], wres := [], output := [27, 91, 50, 74, 27, 91, 72] } :=
  ((editorProcessKeypress_quit true view24x80 (ttyOf ([] ++ ReadResult.byte 17 :: [])) []
      (by decide) [] rfl rfl rfl).2.1).trans (by decide)

theorem editorMoveCursor_down (E : editorConfig) :
    editorMoveCursor ARROW_DOWN E
      = if E.cursor_row ≠ E.screenrows - 1 then { E with cursor_row := E.cursor_row + 1 }
        else E := by
  simp [editorMoveCursor, ARROW_DOWN, ARROW_LEFT, ARROW_UP]

theorem editorMoveCursor_up (E : editorConfig) :
    editorMoveCursor ARROW_UP E
      = if E.cursor_row ≠ 0 then { E with cursor_row := E.cursor_row - 1 } else E := by
  simp [editorMoveCursor, ARROW_LEFT, ARROW_UP]

theorem moveTimes_down (n : Nat) (E : editorConfig) (h : E.cursor_row ≤ E.screenrows - 1) :
    moveTimes ARROW_DOWN n E
      = { E with cursor_row := min (E.cursor_row + (n : Int)) (E.screenrows - 1) } := by
  induction n generalizing E with
  | zero =>
    cases E
    simp only [moveTimes, editorConfig.mk.injEq, true_and, and_true] at h ⊢
    omega
  | succ n ih =>
    rw [moveTimes, editorMoveCursor_down]
    by_cases hb : E.cursor_row = E.screenrows - 1
    · rw [if_neg (fun hne => hne hb), ih E h]
      cases E
      simp only [editorConfig.mk.injEq, true_and, and_true] at h hb ⊢
      omega
    · rw [if_pos hb, ih _ (by simp only; omega)]
      cases E
      simp only [editorConfig.mk.injEq, true_and, and_true] at h hb ⊢
      omega

theorem moveTimes_up (n : Nat) (E : editorConfig) (h : 0 ≤ E.cursor_row) :
    moveTimes ARROW_UP n E = { E with cursor_row := max (E.cursor_row - (n : Int)) 0 } := by
  induction n generalizing E with
  | zero =>
    cases E
    simp only [moveTimes, editorConfig.mk.injEq, true_and, and_true] at h ⊢
    omega
  | succ n ih =>
    rw [moveTimes, editorMoveCursor_up]
    by_cases hb : E.cursor_row = 0
    · rw [if_neg (fun hne => hne hb), ih E h]
      cases E
      simp only [editorConfig.mk.injEq, true_and, and_true] at h hb ⊢
      omega
    · rw [if_pos hb, ih _ (by simp only; omega)]
      cases E
      simp only [editorConfig.mk.injEq, true_and, and_true] at h hb ⊢
      omega

/-- The cases `PAGE_DOWN` and `PAGE_UP` of the switch, for a key value handed to
the switch directly: from a cursor inside a viewport of at least one row and
one column, `editorMoveCursor(ARROW_DOWN)` runs `screenrows` times and the
cursor ends on row `screenrows - 1`, nothing else changing; PAGE_UP does the
same with ARROW_UP and ends on row 0. No input makes `editorReadKey` hand these
two values to the switch. -/
theorem processKey_page (E : editorConfig) (t : Tty)
    (hr : 1 ≤ E.screenrows) (_hc : 1 ≤ E.screencols) (hv : cursorInView E) :
    (E.screenrows.toNat : Int) = E.screenrows ∧
    processKey PAGE_DOWN E t = Step.next (moveTimes ARROW_DOWN E.screenrows.toNat E) t ∧
    moveTimes ARROW_DOWN E.screenrows.toNat E = { E with cursor_row := E.screenrows - 1 } ∧
    processKey PAGE_UP E t = Step.next (moveTimes ARROW_UP E.screenrows.toNat E) t ∧
    moveTimes ARROW_UP E.screenrows.toNat E = { E with cursor_row := 0 } := by
  obtain ⟨v1, v2, _, _⟩ := hv
  have hn : (E.screenrows.toNat : Int) = E.screenrows := by omega
  have hneg : ¬ E.screenrows < 0 := by omega
  have q1 : ¬ (PAGE_DOWN = CTRL_KEY 113) := by rw [CTRL_KEY_q]; decide
  have q2 : ¬ (PAGE_UP = CTRL_KEY 113) := by rw [CTRL_KEY_q]; decide
  have q3 : ¬ (PAGE_DOWN = PAGE_UP) := by decide
  refine ⟨hn, ?_, ?_, ?_, ?_⟩
  · simp [processKey, q1, q3, hneg]
  · rw [moveTimes_down _ E v2]
    have : min (E.cursor_row + (E.screenrows.toNat : Int)) (E.screenrows - 1)
        = E.screenrows - 1 := by omega
    rw [this]
  · simp [processKey, q2, hneg]
  · rw [moveTimes_up _ E v1]
    have : max (E.cursor_row - (E.screenrows.toNat : Int)) 0 = 0 := by omega
    rw [this]

/-- An instance of the two switch cases: PAGE_UP handed to the switch from the
bottom-right corner of the 24x80 viewport ends on row 0, column 79. -/
theorem processKey_page_corner :
    cursorInView view24x80 ∧
    processKey PAGE_UP view24x80 (ttyOf [])
      = Step.next { view24x80 with cursor_row := 0 } (ttyOf []) :=
  ⟨by unfold cursorInView; decide,
   ((processKey_page view24x80 (ttyOf []) (by decide) (by decide)
      (by unfold cursorInView; decide)).2.2.2.1).trans (by decide)⟩

theorem processKey_escape (E : editorConfig) (t : Tty) : processKey 27 E t = Step.next E t := by
  have q : ¬ ((27 : Int) = CTRL_KEY 113) := by rw [CTRL_KEY_q]; decide
  simp [processKey, q, PAGE_DOWN, PAGE_UP, HOME_KEY, END_KEY, ARROW_UP, ARROW_LEFT,
    ARROW_RIGHT, ARROW_DOWN]

theorem editorReadKey_page_bytes (sgn : Bool) (d : Nat) (hd : d = 53 ∨ d = 54) (rest : Input) :
    editorReadKey sgn (bytesIn [27, 91, d, 126] ++ rest)
      = Outcome.ret 27 (ReadResult.byte 126 :: rest) := by
  rcases hd with rfl | rfl <;> cases sgn <;> rfl

/-- C18 (code as written): on the bytes of the Page Down key, ESC `[` `6` `~`,
and of the Page Up key, ESC `[` `5` `~`, `editorProcessKeypress` returns with
the editor state unchanged and the `~` left unread, whatever the state: no
`editorMoveCursor` is applied. In the viewport of 3 rows with the cursor on
row 0, Page Down leaves the cursor on row 0, not on row `screenrows - 1 = 2`;
in the 24x80 viewport with the cursor on row 23, Page Up leaves it on row 23,
not on row 0. -/
theorem editorProcessKeypress_page_bytes (sgn : Bool) (E : editorConfig) (t : Tty)
    (rest : Input) :
    editorProcessKeypress sgn E { t with input := bytesIn [27, 91, 54, 126] ++ rest }
      = Step.next E { t with input := ReadResult.byte 126 :: rest } ∧
    editorProcessKeypress sgn E { t with input := bytesIn [27, 91, 53, 126] ++ rest }
      = Step.next E { t with input := ReadResult.byte 126 :: rest } ∧
    editorProcessKeypress true viewHello (ttyOf (bytesIn [27, 91, 54, 126]))
      = Step.next viewHello (ttyOf (bytesIn [126])) ∧
    viewHello.cursor_row = 0 ∧ viewHello.screenrows - 1 = 2 ∧
    editorProcessKeypress true view24x80 (ttyOf (bytesIn [27, 91, 53, 126]))
      = Step.next view24x80 (ttyOf (bytesIn [126])) ∧
    view24x80.cursor_row = 23 := by
  refine ⟨?_, ?_, by decide, rfl, by decide, by decide, rfl⟩
  · unfold editorProcessKeypress
    simp only [editorReadKey_page_bytes sgn 54 (Or.inr rfl) rest, processKey_escape]
  · unfold editorProcessKeypress
    simp only [editorReadKey_page_bytes sgn 53 (Or.inl rfl) rest, processKey_escape]

/-! ### Terminal mode controller -/

theorem clearFlags_testBit (f m i : Nat) :
    (clearFlags f m).testBit i = (f.testBit i && (decide (i < 32) && !(m.testBit i))) := by
  have h1 : (4294967295 : Nat) = 2 ^ 32 - 1 := by norm_num
  have h2 : (4294967296 : Nat) = 2 ^ 32 := by norm_num
  unfold clearFlags
  rw [h1, h2, Nat.testBit_and, Nat.testBit_xor, Nat.testBit_two_pow_sub_one,
    Nat.testBit_mod_two_pow]
  cases f.testBit i <;> cases m.testBit i <;> cases decide (i < 32) <;> rfl

/-- Clearing a mask clears every flag whose bits lie in the mask. -/
theorem clearFlags_cleared (f m k : Nat)
    (hk : ∀ i, k.testBit i = true → m.testBit i = true) : clearFlags f m &&& k = 0 := by
  apply Nat.eq_of_testBit_eq
  intro i
  rw [Nat.testBit_and, clearFlags_testBit, Nat.zero_testBit]
  cases hki : k.testBit i
  · simp
  · simp [hk i hki]

theorem or_and_self_mask (c k : Nat) : (c ||| k) &&& k = k := by
  apply Nat.eq_of_testBit_eq
  intro i
  rw [Nat.testBit_and, Nat.testBit_or]
  cases c.testBit i <;> cases k.testBit i <;> rfl

/-- C17: whatever attributes are captured, the attributes that `enableRawMode`
applies (both `tcgetattr` and `tcsetattr` succeeding) have ICRNL, INPCK, ISTRIP
and IXON cleared in `c_iflag`, OPOST cleared in `c_oflag`, the CS8 bits set in
`c_cflag`, ECHO, ICANON, IEXTEN and ISIG cleared in `c_lflag`, `c_cc[VMIN] = 0`
and `c_cc[VTIME] = 1`; the saved `orig_termios` equals the captured attributes,
and `disableRawMode` applies exactly those again. The indices VMIN and VTIME of
`<termios.h>` are taken to differ. -/
theorem enableRawMode_attributes (K : TermiosConsts) (s : ModeState)
    (hidx : K.VMIN ≠ K.VTIME) :
    enableRawMode K true true s
      = ModeResult.ok
          { attrs := rawAttributes K s.attrs, orig_termios := s.attrs, registered := true } ∧
    (rawAttributes K s.attrs).c_iflag &&& K.ICRNL = 0 ∧
    (rawAttributes K s.attrs).c_iflag &&& K.INPCK = 0 ∧
    (rawAttributes K s.attrs).c_iflag &&& K.ISTRIP = 0 ∧
    (rawAttributes K s.attrs).c_iflag &&& K.IXON = 0 ∧
    (rawAttributes K s.attrs).c_oflag &&& K.OPOST = 0 ∧
    (rawAttributes K s.attrs).c_cflag &&& K.CS8 = K.CS8 ∧
    (rawAttributes K s.attrs).c_lflag &&& K.ECHO = 0 ∧
    (rawAttributes K s.attrs).c_lflag &&& K.ICANON = 0 ∧
    (rawAttributes K s.attrs).c_lflag &&& K.IEXTEN = 0 ∧
    (rawAttributes K s.attrs).c_lflag &&& K.ISIG = 0 ∧
    (rawAttributes K s.attrs).c_cc K.VMIN = 0 ∧
    (rawAttributes K s.attrs).c_cc K.VTIME = 1 ∧
    disableRawMode true
        { attrs := rawAttributes K s.attrs, orig_termios := s.attrs, registered := true }
      = ModeResult.ok { attrs := s.attrs, orig_termios := s.attrs, registered := true } := by
  refine ⟨by simp [enableRawMode], ?_, ?_, ?_, ?_, ?_, ?_, ?_, ?_, ?_, ?_, ?_, ?_,
    by simp [disableRawMode]⟩
  · exact clearFlags_cleared _ _ _ (fun i h => by simp [Nat.testBit_or, h])
  · exact clearFlags_cleared _ _ _ (fun i h => by simp [Nat.testBit_or, h])
  · exact clearFlags_cleared _ _ _ (fun i h => by simp [Nat.testBit_or, h])
  · exact clearFlags_cleared _ _ _ (fun i h => by simp [Nat.testBit_or, h])
  · exact clearFlags_cleared _ _ _ (fun i h => h)
  · exact or_and_self_mask _ _
  · exact clearFlags_cleared _ _ _ (fun i h => by simp [Nat.testBit_or, h])
  · exact clearFlags_cleared _ _ _ (fun i h => by simp [Nat.testBit_or, h])
  · exact clearFlags_cleared _ _ _ (fun i h => by simp [Nat.testBit_or, h])
  · exact clearFlags_cleared _ _ _ (fun i h => by simp [Nat.testBit_or, h])
  · simp only [rawAttributes]
    rw [Function.update_noteq hidx, Function.update_same]
  · simp only [rawAttributes]
    rw [Function.update_same]

/-- Witness for C17: the Linux constants on a cooked-mode terminal. -/
theorem enableRawMode_attributes_witness :
    linuxConsts.VMIN ≠ linuxConsts.VTIME ∧
    (rawAttributes linuxConsts cookedAttrs).c_iflag &&& linuxConsts.ICRNL = 0 ∧
    (rawAttributes linuxConsts cookedAttrs).c_cc linuxConsts.VMIN = 0 ∧
    (rawAttributes linuxConsts cookedAttrs).c_cc linuxConsts.VTIME = 1 :=
  ⟨by decide,
   (enableRawMode_attributes linuxConsts
      { attrs := cookedAttrs, orig_termios := cookedAttrs, registered := false }
      (by decide)).2.1,
   (enableRawMode_attributes linuxConsts
      { attrs := cookedAttrs, orig_termios := cookedAttrs, registered := false }
      (by decide)).2.2.2.2.2.2.2.2.2.2.2.1,
   (enableRawMode_attributes linuxConsts
      { attrs := cookedAttrs, orig_termios := cookedAttrs, registered := false }
      (by decide)).2.2.2.2.2.2.2.2.2.2.2.2.1⟩

end Kilo
